import Mathlib

/-!
# Verification of the ECOE checklist adaptation and evaluation engine

Shallow embedding of the core engine of the ECOE repository:

* `src/simulador/text_utils.py` — text normalization and speaker-line extraction;
* `src/simulador/checklist_loader_v2.py` — checklist loading, validation, indices,
  regex pre-compilation;
* `src/simulador/case_adapter_v2.py` — symptom-driven adaptation of the checklist;
* `src/simulador/evaluator_v3.py` — item matching and transcript evaluation.

Python strings are modelled by Lean `String`/`List Char`.  The Unicode-dependent
character primitives (`str.lower`, NFD decomposition, combining-mark detection, the
`\w`/`\s` character classes) are modelled concretely on the character fragment the
engine actually works over — ASCII plus the Spanish accented letters and punctuation
appearing in the checklist data — with every character outside that fragment treated
as caseless, non-decomposing, non-combining.  Python integers are `Nat` (checklist
points are non-negative), `math.ceil` is `Int.ceil` over `ℚ`, and Python `round`
(banker's rounding) is modelled exactly over `ℚ`.
-/

namespace ECOE

/-! ## Character primitives (the modelled Unicode fragment) -/

/-- Combining acute accent U+0301, produced by NFD of á/é/í/ó/ú. -/
def combAcute : Char := Char.ofNat 769

/-- Combining tilde U+0303, produced by NFD of ñ. -/
def combTilde : Char := Char.ofNat 771

/-- Combining diaeresis U+0308, produced by NFD of ü. -/
def combDiaeresis : Char := Char.ofNat 776

/-- Models `unicodedata.combining(ch) != 0` on the fragment: the three combining
marks produced by the decomposition table below. -/
def isCombining (c : Char) : Bool :=
  c = combAcute || c = combTilde || c = combDiaeresis

/-- Lower-casing table for `str.lower`: ASCII A–Z plus the Spanish accented
uppercase letters. -/
def lowerTable : List (Char × Char) :=
  [('A', 'a'), ('B', 'b'), ('C', 'c'), ('D', 'd'), ('E', 'e'), ('F', 'f'),
   ('G', 'g'), ('H', 'h'), ('I', 'i'), ('J', 'j'), ('K', 'k'), ('L', 'l'),
   ('M', 'm'), ('N', 'n'), ('O', 'o'), ('P', 'p'), ('Q', 'q'), ('R', 'r'),
   ('S', 's'), ('T', 't'), ('U', 'u'), ('V', 'v'), ('W', 'w'), ('X', 'x'),
   ('Y', 'y'), ('Z', 'z'),
   ('Á', 'á'), ('É', 'é'), ('Í', 'í'), ('Ó', 'ó'), ('Ú', 'ú'), ('Ü', 'ü'),
   ('Ñ', 'ñ')]

/-- Models Python `str.lower` character-wise on the fragment; characters outside
the table are caseless. -/
def pyLowerChar (c : Char) : Char :=
  match lowerTable.find? (fun p => p.1 = c) with
  | some p => p.2
  | none => c

/-- Canonical (NFD) decomposition table for the accented lowercase letters. -/
def nfdTable : List (Char × List Char) :=
  [('á', ['a', combAcute]), ('é', ['e', combAcute]), ('í', ['i', combAcute]),
   ('ó', ['o', combAcute]), ('ú', ['u', combAcute]), ('ü', ['u', combDiaeresis]),
   ('ñ', ['n', combTilde]),
   ('Á', ['A', combAcute]), ('É', ['E', combAcute]), ('Í', ['I', combAcute]),
   ('Ó', ['O', combAcute]), ('Ú', ['U', combAcute]), ('Ü', ['U', combDiaeresis]),
   ('Ñ', ['N', combTilde])]

/-- Models `unicodedata.normalize("NFD", ·)` character-wise on the fragment;
characters outside the table are their own decomposition. -/
def nfdChar (c : Char) : List Char :=
  match nfdTable.find? (fun p => p.1 = c) with
  | some p => p.2
  | none => [c]

/-- Models the `\s` character class of Python `re` (ASCII whitespace). -/
def isSpaceChar (c : Char) : Bool :=
  c = ' ' || c = '\t' || c = '\n' || c = '\r' || c = Char.ofNat 11 || c = Char.ofNat 12

/-- Models the `\w` character class of Python `re` on the fragment: ASCII
alphanumerics, underscore, and the Spanish accented letters. -/
def isWordChar (c : Char) : Bool :=
  (('a' ≤ c && c ≤ 'z') || ('A' ≤ c && c ≤ 'Z') || ('0' ≤ c && c ≤ '9') || c = '_'
   || c = 'á' || c = 'é' || c = 'í' || c = 'ó' || c = 'ú' || c = 'ü' || c = 'ñ'
   || c = 'Á' || c = 'É' || c = 'Í' || c = 'Ó' || c = 'Ú' || c = 'Ü' || c = 'Ñ')

/-! ## String helpers shared by the Python sources -/

/-- Replace each maximal whitespace run by a single space, carrying a flag saying
whether the previous character was whitespace: models `re.sub(r"\s+", " ", ·)`. -/
def collapseAux : Bool → List Char → List Char
  | _, [] => []
  | prevSpace, c :: cs =>
    if isSpaceChar c then
      if prevSpace then collapseAux true cs
      else ' ' :: collapseAux true cs
    else c :: collapseAux false cs

/-- Models `re.sub(r"\s+", " ", text)`. -/
def collapseSpaces (l : List Char) : List Char := collapseAux false l

/-- Drop trailing whitespace characters. -/
def dropTrailingSpaces : List Char → List Char
  | [] => []
  | c :: cs =>
    match dropTrailingSpaces cs with
    | [] => if isSpaceChar c then [] else [c]
    | r => c :: r

/-- Models Python `str.strip()` on character lists. -/
def pyStripChars (l : List Char) : List Char :=
  dropTrailingSpaces (l.dropWhile isSpaceChar)

/-- Models Python `str.strip()`. -/
def pyStrip (s : String) : String := ⟨pyStripChars s.data⟩

/-- Models Python `str.lstrip()`. -/
def pyLStrip (s : String) : String := ⟨s.data.dropWhile isSpaceChar⟩

/-- Models Python `str.lower()` on the fragment. -/
def pyLower (s : String) : String := ⟨s.data.map pyLowerChar⟩

/-!
## `text_utils.normalize_text`

Embeds `normalize_text` (src/simulador/text_utils.py, lines 13–48):
lower-case, NFD decomposition, removal of combining marks, replacement of
non-word/non-space characters by a space, collapse of whitespace runs, strip.
-/

/-- The character pipeline of `normalize_text` before the final strip:
lower-case, decompose, drop combining marks, punctuation to spaces, collapse
whitespace runs. -/
def normalizeChars (l : List Char) : List Char :=
  collapseSpaces
    ((((l.map pyLowerChar).flatMap nfdChar).filter (fun c => !isCombining c)).map
      (fun c => if !isWordChar c && !isSpaceChar c then ' ' else c))

/-- Embeds `text_utils.normalize_text`. -/
def normalize_text (s : String) : String :=
  if s = "" then ""
  else ⟨pyStripChars (normalizeChars s.data)⟩

/-!
## `text_utils.extract_student_lines` and the transcript preprocessors
-/

/-- Models Python `str.splitlines()` (the sources only ever contain `\n` / `\r\n`
line endings; a trailing `\r` is removed by the subsequent `strip()`). -/
def splitLines (s : String) : List String :=
  (s.data.splitOn '\n').map (fun l => ⟨l⟩)

/-- If `line` starts with `tag`, return the line's content after the tag with an
optional colon and surrounding whitespace removed (the common body of the two tag
branches of `extract_student_lines`). -/
def stripTag (tag : String) (line : String) : Option String :=
  if tag.data.isPrefixOf line.data then
    let content := pyLStrip ⟨line.data.drop tag.data.length⟩
    some (if [':'].isPrefixOf content.data then pyLStrip ⟨content.data.drop 1⟩ else content)
  else
    none

/-- Embeds `text_utils.extract_student_lines` (lines 51–104): keep the contents of
`[ESTUDIANTE]`/`[STUDENT]` lines; if no student line was found and the transcript
is non-blank, fall back to the whole stripped transcript as a single line. -/
def extract_student_lines (transcript : String) : List String :=
  let student_lines := (splitLines transcript).filterMap (fun raw_line =>
    let line := pyStrip raw_line
    if line = "" then none
    else
      match stripTag "[ESTUDIANTE]" line with
      | some content => if content = "" then none else some content
      | none =>
        match stripTag "[STUDENT]" line with
        | some content => if content = "" then none else some content
        | none => none)
  if student_lines.isEmpty && pyStrip transcript ≠ "" then [pyStrip transcript]
  else student_lines

/-- Output structure of the role-aware transcript preprocessor (the keys read by
`evaluator_v3.evaluate_transcript` and `evaluator_v2`). -/
structure Preprocessed where
  student_lines : List String
  patient_lines : List String
  student_text_normalized : String
  patient_text_normalized : String
deriving Repr, DecidableEq

/-- The speaker role of one transcript line. -/
inductive Role where
  | student
  | patient
deriving Repr, DecidableEq

/-- Classify one stripped line by its leading speaker tag (two spellings per
role, with or without a trailing colon). -/
def classifyLine (line : String) : Option (Role × String) :=
  match stripTag "[ESTUDIANTE]" line with
  | some content => some (Role.student, content)
  | none =>
    match stripTag "[STUDENT]" line with
    | some content => some (Role.student, content)
    | none =>
      match stripTag "[PACIENTE]" line with
      | some content => some (Role.patient, content)
      | none =>
        match stripTag "[PATIENT]" line with
        | some content => some (Role.patient, content)
        | none => none

/-- The role-classified non-empty lines of a transcript. -/
def taggedLines (transcript : String) : List (Role × String) :=
  (splitLines transcript).filterMap (fun raw_line =>
    let line := pyStrip raw_line
    if line = "" then none
    else
      match classifyLine line with
      | some (role, content) => if content = "" then none else some (role, content)
      | none => none)

/-- Modelled from the spec: `preprocess_transcript_by_role` is imported by
`evaluator_v3.py` and `evaluator_v2.py` from `text_utils`, but no definition of it
is present in the repository sources.  Spec §4.3: split the raw transcript on line
boundaries; classify each non-empty line by a leading speaker tag (two accepted
spellings per role, with or without a trailing colon); drop lines with no
recognizable tag unless no tag is found anywhere in the transcript, in which case
the entire transcript is one examinee turn; concatenate each role's lines in order
and normalize the concatenations. -/
def preprocess_transcript_by_role (transcript : String) : Preprocessed :=
  let tagged := taggedLines transcript
  if tagged.isEmpty && pyStrip transcript ≠ "" then
    { student_lines := [pyStrip transcript]
      patient_lines := []
      student_text_normalized := normalize_text (pyStrip transcript)
      patient_text_normalized := "" }
  else
    let student_lines := (tagged.filter (fun p => p.1 = Role.student)).map Prod.snd
    let patient_lines := (tagged.filter (fun p => p.1 = Role.patient)).map Prod.snd
    { student_lines := student_lines
      patient_lines := patient_lines
      student_text_normalized := normalize_text (String.intercalate " " student_lines)
      patient_text_normalized := normalize_text (String.intercalate " " patient_lines) }

/-!
## Search primitives of the `re` usages

The engine uses `re` in four shapes: word-boundary-anchored literal search
(`r'\b' + re.escape(kw) + r'\b'`), plain substring membership (`kw in text`),
`\b\d{2}\b` and `\b\d+\b`.  Each is embedded directly.
-/

/-- Whether position `i` of `text` holds a word character (`false` out of range):
the `w(i)` of the textbook definition of the `\b` assertion. -/
def wordAt (text : List Char) (i : Nat) : Bool :=
  match text.get? i with
  | some c => isWordChar c
  | none => false

/-- The `\b` assertion of Python `re` at position `p`: a word character on exactly
one side. -/
def boundaryAt (text : List Char) (p : Nat) : Bool :=
  ((p != 0) && wordAt text (p - 1)) != wordAt text p

/-- Does `needle` occur in `text` starting at position `i`? -/
def matchesAt (text needle : List Char) (i : Nat) : Bool :=
  needle.isPrefixOf (text.drop i)

/-- Models `re.search(r'\b' + re.escape(needle) + r'\b', text) is not None`. -/
def searchWordBounded (needle : String) (text : String) : Bool :=
  (List.range (text.data.length + 1)).any (fun i =>
    matchesAt text.data needle.data i
    && boundaryAt text.data i
    && boundaryAt text.data (i + needle.data.length))

/-- Models Python substring membership `needle in text`. -/
def pyContains (text needle : String) : Bool :=
  (List.range (text.data.length + 1)).any (fun i => matchesAt text.data needle.data i)

/-- Models the `\d` character class (ASCII digits). -/
def isDigitChar (c : Char) : Bool := '0' ≤ c && c ≤ '9'

/-- Whether position `i` of `text` holds a digit (`false` out of range). -/
def digitAt (text : List Char) (i : Nat) : Bool :=
  match text.get? i with
  | some c => isDigitChar c
  | none => false

/-- Models `re.search(r"\b\d{2}\b", text) is not None`: two digits with a word
boundary on each side. -/
def hasTwoDigitToken (text : String) : Bool :=
  (List.range text.data.length).any (fun i =>
    digitAt text.data i && digitAt text.data (i + 1)
    && !((i != 0) && wordAt text.data (i - 1))
    && !(wordAt text.data (i + 2)))

/-- After a maximal digit run, is the next character absent or a non-word
character?  (Digits are word characters, so `\d+` cannot match a shorter run.) -/
def digitRunEnds : List Char → Bool
  | [] => true
  | c :: cs => if isDigitChar c then digitRunEnds cs else !isWordChar c

/-- Models `re.search(r"\b\d+\b", text) is not None`. -/
def hasBoundedNumber (text : String) : Bool :=
  (List.range text.data.length).any (fun i =>
    digitAt text.data i
    && !((i != 0) && wordAt text.data (i - 1))
    && digitRunEnds (text.data.drop (i + 1)))

/-!
## Data model of `checklist_loader_v2.py`

The JSON document is modelled structurally.  Optional JSON keys become `Option`
fields or defaulted fields whose default reproduces the `dict.get` fallback used
at every access site.
-/

/-- One checklist item (`items[]` entry of master-checklist-v2.json).  `label` and
`description` are `Option` because `evaluate_item` distinguishes a missing key
from an empty value via `item.get`. -/
structure Item where
  id : String
  block_id : String
  subsection : Option String := none
  points : Nat := 0
  no_applicable : Bool := false
  regex : List String := []
  keywords : List String := []
  label : Option String := none
  description : Option String := none
deriving Repr, DecidableEq

/-- One checklist block (`blocks[]` entry). -/
structure Block where
  block_id : String
  name : String := ""
  max_points : Nat := 0
deriving Repr, DecidableEq

/-- The checklist metadata section. -/
structure Metadata where
  version : String := ""
  total_blocks : Nat := 0
  total_items : Nat := 0
  max_points : Nat := 0
  min_points_required : Nat := 0
  passing_percentage : ℚ := 0
deriving Repr, DecidableEq

/-- A raw checklist document before validation: each required top-level key may
be missing. -/
structure RawChecklist where
  metadata : Option Metadata := none
  blocks : Option (List Block) := none
  items : Option (List Item) := none
deriving Repr, DecidableEq

/-- A compiled regex as the evaluator observes it: its source text and its
`search` behaviour. -/
structure RegexPattern where
  pattern : String
  search : String → Bool

/-- Models Python `re.compile(p, re.IGNORECASE)` restricted to the fragment of
literal patterns (word characters and whitespace only): such a pattern compiles
to case-insensitive substring search, which is exactly Python's semantics for it.
Every other pattern — including the genuinely invalid ones such as an unbalanced
`"("`, which raise `re.error` in Python — is conservatively treated as failing to
compile. -/
def re_compile (p : String) : Option RegexPattern :=
  if p.data.all (fun c => isWordChar c || isSpaceChar c) then
    some { pattern := p, search := fun text => pyContains (pyLower text) (pyLower p) }
  else none

/-- Embeds `ChecklistLoaderV2._validate_structure` (lines 65–94): required keys
present, unique block ids, unique item ids, and every item's `block_id` non-empty
and resolving to a declared block.  The first violation is reported. -/
def validate_structure (data : RawChecklist) : Except String Unit := do
  match data.metadata with
  | none => throw "JSON falta key 'metadata'"
  | some _ =>
  match data.blocks with
  | none => throw "JSON falta key 'blocks'"
  | some bs =>
  match data.items with
  | none => throw "JSON falta key 'items'"
  | some its =>
    let block_ids := bs.map Block.block_id
    if !List.Nodup block_ids then throw "block_id duplicados detectados"
    else if !List.Nodup (its.map Item.id) then throw "item.id duplicados detectados"
    else
      match its.find? (fun it => it.block_id = "") with
      | some it => throw ("Item " ++ it.id ++ " sin block_id")
      | none =>
        match its.find? (fun it => !List.contains block_ids it.block_id) with
        | some it =>
          throw ("Item " ++ it.id ++ " referencia bloque inexistente: " ++ it.block_id)
        | none => pure ()

/-- The validated in-memory checklist (`ChecklistLoaderV2` after `__init__`).
The Python dict indices are modelled as the lookup functions below, which agree
with them extensionally. -/
structure Loader where
  metadata : Metadata
  blocks : List Block
  items : List Item
deriving Repr, DecidableEq

/-- Embeds `ChecklistLoaderV2.__init__` after the JSON parse: validate, then keep
the three sections. -/
def loadChecklist (data : RawChecklist) : Except String Loader := do
  validate_structure data
  match data.metadata, data.blocks, data.items with
  | some m, some bs, some its => pure { metadata := m, blocks := bs, items := its }
  | _, _, _ => throw "unreachable"

/-- The loader records no warnings anywhere: the `except re.error` branch of
`_precompile_regex` (lines 126–128) is a bare `pass`, so the set of warnings
recorded while pre-compiling any item list is empty.  This definition makes that
absence explicit and refutable. -/
def precompileWarnings (items : List Item) : List String :=
  items.foldl (fun acc _ => acc) []

/-- Embeds `ChecklistLoaderV2.get_block`. -/
def Loader.get_block (L : Loader) (block_id : String) : Option Block :=
  L.blocks.find? (fun b => b.block_id = block_id)

/-- Embeds `ChecklistLoaderV2.get_items_for_block` (the `items_by_block` index,
which groups `self.items` by `block_id` preserving order). -/
def Loader.get_items_for_block (L : Loader) (block_id : String) : List Item :=
  L.items.filter (fun it => it.block_id = block_id)

/-- The subsection under which `_build_items_by_subsection` indexes an item:
present and truthy (non-empty). -/
def subsectionKey (it : Item) : Option String :=
  match it.subsection with
  | some v => if v = "" then none else some v
  | none => none

/-- Embeds `ChecklistLoaderV2.get_items_for_subsection` (the `items_by_subsection`
index: items whose `subsection` key is present and non-empty). -/
def Loader.get_items_for_subsection (L : Loader) (subsection : String) : List Item :=
  L.items.filter (fun it => subsectionKey it = some subsection)

/-- Python `sorted` on strings (code-point lexicographic order). -/
def sortStrings (l : List String) : List String :=
  l.insertionSort (fun a b => a ≤ b)

/-- Embeds `ChecklistLoaderV2.list_subsections`: the sorted keys of the
`items_by_subsection` index. -/
def Loader.list_subsections (L : Loader) : List String :=
  sortStrings (L.items.filterMap subsectionKey).dedup

/-- Embeds `ChecklistLoaderV2.get_applicable_items`. -/
def Loader.get_applicable_items (L : Loader) : List Item :=
  L.items.filter (fun it => !it.no_applicable)

/-- Embeds `ChecklistLoaderV2.get_compiled_regex` backed by `_precompile_regex`
(lines 117–130): per item, compile each pattern in order and silently drop the
ones that fail to compile. -/
def Loader.get_compiled_regex (L : Loader) (item_id : String) : List RegexPattern :=
  match L.items.find? (fun it => it.id = item_id) with
  | some it => it.regex.filterMap re_compile
  | none => []

/-- The sum of `points` over the non-`no_applicable` items of the whole
definition: the spec's "global total points" of §8. -/
def globalTotalPoints (L : Loader) : Nat :=
  ((L.items.filter (fun it => !it.no_applicable)).map Item.points).sum

/-!
## `case_adapter_v2.py`

The static symptom → subsections table, transcribed verbatim.  The Python dict
literal binds the key `"mareo"` twice (case_adapter_v2.py lines 44 and 79); dict
semantics keep the later value, so the table below carries the effective binding
`"mareo" ↦ ["NEUROLOGICO", "CARDIOVASCULAR"]` at the first key position.
-/

/-- Embeds `CaseAdapterV2.SYMPTOM_TO_SUBSECTIONS` (effective dict contents). -/
def SYMPTOM_TO_SUBSECTIONS : List (String × List String) :=
  [("dolor torácico", ["CARDIOVASCULAR", "RESPIRATORIO"]),
   ("dolor retroesternal", ["CARDIOVASCULAR"]),
   ("dolor opresivo", ["CARDIOVASCULAR"]),
   ("dolor precordial", ["CARDIOVASCULAR"]),
   ("palpitaciones", ["CARDIOVASCULAR"]),
   ("síncope", ["CARDIOVASCULAR", "NEUROLOGICO"]),
   ("sincope", ["CARDIOVASCULAR", "NEUROLOGICO"]),
   ("mareo", ["NEUROLOGICO", "CARDIOVASCULAR"]),
   ("edemas", ["CARDIOVASCULAR"]),
   ("claudicación", ["CARDIOVASCULAR"]),
   ("claudicacion", ["CARDIOVASCULAR"]),
   ("ortopnea", ["CARDIOVASCULAR", "RESPIRATORIO"]),
   ("disnea paroxística", ["CARDIOVASCULAR", "RESPIRATORIO"]),
   ("disnea", ["CARDIOVASCULAR", "RESPIRATORIO"]),
   ("tos", ["RESPIRATORIO"]),
   ("expectoración", ["RESPIRATORIO"]),
   ("expectoracion", ["RESPIRATORIO"]),
   ("hemoptisis", ["RESPIRATORIO"]),
   ("sibilancias", ["RESPIRATORIO"]),
   ("dolor costal", ["RESPIRATORIO"]),
   ("dolor abdominal", ["DIGESTIVO"]),
   ("náuseas", ["DIGESTIVO"]),
   ("nauseas", ["DIGESTIVO"]),
   ("vómitos", ["DIGESTIVO"]),
   ("vomitos", ["DIGESTIVO"]),
   ("diarrea", ["DIGESTIVO"]),
   ("estreñimiento", ["DIGESTIVO"]),
   ("estrenimiento", ["DIGESTIVO"]),
   ("melenas", ["DIGESTIVO"]),
   ("hematoquecia", ["DIGESTIVO"]),
   ("hematemesis", ["DIGESTIVO"]),
   ("ictericia", ["DIGESTIVO"]),
   ("disfagia", ["DIGESTIVO"]),
   ("pirosis", ["DIGESTIVO"]),
   ("reflujo", ["DIGESTIVO"]),
   ("cefalea", ["NEUROLOGICO"]),
   ("vértigo", ["NEUROLOGICO"]),
   ("vertigo", ["NEUROLOGICO"]),
   ("pérdida de conciencia", ["NEUROLOGICO"]),
   ("perdida de conciencia", ["NEUROLOGICO"]),
   ("confusión", ["NEUROLOGICO"]),
   ("confusion", ["NEUROLOGICO"]),
   ("convulsiones", ["NEUROLOGICO"]),
   ("paresia", ["NEUROLOGICO"]),
   ("parestesias", ["NEUROLOGICO"]),
   ("diplopia", ["NEUROLOGICO"]),
   ("disartria", ["NEUROLOGICO"]),
   ("disuria", ["GENITOURINARIO"]),
   ("polaquiuria", ["GENITOURINARIO"]),
   ("hematuria", ["GENITOURINARIO"]),
   ("incontinencia urinaria", ["GENITOURINARIO"]),
   ("dolor lumbar", ["GENITOURINARIO"]),
   ("dolor testicular", ["GENITOURINARIO"]),
   ("flujo vaginal", ["GENITOURINARIO"]),
   ("sangrado vaginal", ["GENITOURINARIO"]),
   ("dolor articular", ["MUSCULOESQUELETICO"]),
   ("artralgia", ["MUSCULOESQUELETICO"]),
   ("mialgia", ["MUSCULOESQUELETICO"]),
   ("rigidez articular", ["MUSCULOESQUELETICO"]),
   ("inflamación articular", ["MUSCULOESQUELETICO"]),
   ("inflamacion articular", ["MUSCULOESQUELETICO"]),
   ("limitación funcional", ["MUSCULOESQUELETICO"]),
   ("limitacion funcional", ["MUSCULOESQUELETICO"]),
   ("poliuria", ["ENDOCRINO", "GENITOURINARIO"]),
   ("polidipsia", ["ENDOCRINO"]),
   ("polifagia", ["ENDOCRINO"]),
   ("pérdida de peso", ["ENDOCRINO"]),
   ("perdida de peso", ["ENDOCRINO"]),
   ("ganancia de peso", ["ENDOCRINO"]),
   ("intolerancia al frío", ["ENDOCRINO"]),
   ("intolerancia al calor", ["ENDOCRINO"]),
   ("sudoración nocturna", ["ENDOCRINO"]),
   ("sudoracion nocturna", ["ENDOCRINO"]),
   ("lesión cutánea", ["DERMATOLOGICO"]),
   ("lesion cutanea", ["DERMATOLOGICO"]),
   ("exantema", ["DERMATOLOGICO"]),
   ("prurito", ["DERMATOLOGICO"]),
   ("úlcera", ["DERMATOLOGICO"]),
   ("ulcera", ["DERMATOLOGICO"]),
   ("alopecia", ["DERMATOLOGICO"]),
   ("equimosis", ["HEMATOLOGICO"]),
   ("petequias", ["HEMATOLOGICO"]),
   ("hematomas", ["HEMATOLOGICO"]),
   ("sangrado", ["HEMATOLOGICO"]),
   ("anemia", ["HEMATOLOGICO"]),
   ("ansiedad", ["PSIQUIATRICO"]),
   ("depresión", ["PSIQUIATRICO"]),
   ("depresion", ["PSIQUIATRICO"]),
   ("insomnio", ["PSIQUIATRICO"]),
   ("ánimo bajo", ["PSIQUIATRICO"]),
   ("animo bajo", ["PSIQUIATRICO"]),
   ("pensamientos suicidas", ["PSIQUIATRICO"]),
   ("alucinaciones", ["PSIQUIATRICO"]),
   ("delirios", ["PSIQUIATRICO"])]

/-- Dict lookup in the symptom table. -/
def symptomLookup (symptom : String) : Option (List String) :=
  (SYMPTOM_TO_SUBSECTIONS.find? (fun p => p.1 = symptom)).map Prod.snd

/-- Embeds `CaseAdapterV2.UNIVERSAL_BLOCK_IDS`. -/
def UNIVERSAL_BLOCK_IDS : List String :=
  ["B0_INTRODUCCION", "B1_MOTIVO_CONSULTA", "B2_HEA", "B3_ANTECEDENTES",
   "B4_MEDICACION_ALERGIAS", "B5_SOCIAL", "B6_FAMILIAR", "B8_CIERRE",
   "B9_COMUNICACION"]

/-- A case descriptor as read by `CaseAdapterV2._extract_symptoms` and
`evaluate_transcript`.  A missing free-text key behaves like an empty string at
every access site, so the text fields are plain strings. -/
structure CaseData where
  id : Option String := none
  sintomas_principales : List String := []
  motivo_consulta : String := ""
  contexto_generado : String := ""
deriving Repr, DecidableEq

/-- Set insertion for the Python `set` objects of the adapter, modelled as
duplicate-free lists in insertion order. -/
def addUnique (l : List String) (s : String) : List String :=
  if s ∈ l then l else l ++ [s]

/-- Embeds `CaseAdapterV2._extract_symptoms` (lines 174–210): lower-cased,
stripped primary symptoms, plus every table key found with word boundaries in the
lower-cased chief complaint and generated narrative. -/
def extract_symptoms (case_data : CaseData) : List String :=
  let fromList := case_data.sintomas_principales.foldl
    (fun acc s => addUnique acc (pyStrip (pyLower s))) []
  let fromMotivo := SYMPTOM_TO_SUBSECTIONS.foldl
    (fun acc p =>
      if searchWordBounded p.1 (pyLower case_data.motivo_consulta) then addUnique acc p.1
      else acc)
    fromList
  SYMPTOM_TO_SUBSECTIONS.foldl
    (fun acc p =>
      if searchWordBounded p.1 (pyLower case_data.contexto_generado) then addUnique acc p.1
      else acc)
    fromMotivo

/-- The subsections reached by mapping each detected symptom through the table
(the pre-fallback part of `_get_active_subsections`). -/
def mapped_subsections (symptoms : List String) : List String :=
  symptoms.foldl
    (fun acc s =>
      match symptomLookup s with
      | some subs => subs.foldl addUnique acc
      | none => acc)
    []

/-- Embeds `CaseAdapterV2._get_active_subsections` (lines 212–233): the mapped
subsections, or every subsection of the checklist when no symptom mapped
(fallback activation). -/
def get_active_subsections (L : Loader) (symptoms : List String) : List String :=
  let active := mapped_subsections symptoms
  if active.isEmpty then L.list_subsections else active

/-- The adapted checklist returned by `CaseAdapterV2.adapt_to_case`. -/
structure Adapted where
  items_activos : List Item
  max_points_case : Nat
  min_points_case : ℤ
  blocks_activos : List (String × Nat)
  subsections_b7_activas : List String
  total_items_activos : Nat
  sintomas_detectados : List String
deriving Repr, DecidableEq

/-- Embeds `CaseAdapterV2.adapt_to_case` (lines 235–301).  Python iterates the
`active_subsections_b7` set in unspecified order; the embedding iterates it in
sorted order (every aggregate the claims touch is order-independent). -/
def adapt_to_case (L : Loader) (case_data : CaseData) : Adapted :=
  let symptoms := extract_symptoms case_data
  let active_subsections_b7 := sortStrings (get_active_subsections L symptoms)
  let universal_items := UNIVERSAL_BLOCK_IDS.flatMap (fun b => L.get_items_for_block b)
  let universal_blocks_points := UNIVERSAL_BLOCK_IDS.map (fun b =>
    (b, (((L.get_items_for_block b).filter (fun it => !it.no_applicable)).map
      Item.points).sum))
  let b7_items := active_subsections_b7.flatMap (fun s => L.get_items_for_subsection s)
  let b7_points := ((b7_items.filter (fun it => !it.no_applicable)).map Item.points).sum
  let items_activos := universal_items ++ b7_items
  let max_points_case :=
    ((items_activos.filter (fun it => !it.no_applicable)).map Item.points).sum
  let min_points_case :=
    Int.ceil ((max_points_case : ℚ) * L.metadata.passing_percentage / 100)
  { items_activos := items_activos
    max_points_case := max_points_case
    min_points_case := min_points_case
    blocks_activos := universal_blocks_points ++ [("B7_ANAMNESIS_APARATOS", b7_points)]
    subsections_b7_activas := active_subsections_b7
    total_items_activos := items_activos.length
    sintomas_detectados := sortStrings symptoms }

/-!
## `evaluator_v3.py`

The question/answer lexicons (module constants, lines 27–123) and the per-item
matching cascade.
-/

/-- Embeds `HABITOS_TABACO_STUDENT`. -/
def HABITOS_TABACO_STUDENT : List String := ["fumas", "fuma", "tabaco", "cigarr", "fumador"]

/-- Embeds `HABITOS_TABACO_PATIENT`. -/
def HABITOS_TABACO_PATIENT : List String := ["fumo", "fumador", "cigarr", "tabaco", "paquete"]

/-- Embeds `HABITOS_ALCOHOL_STUDENT`. -/
def HABITOS_ALCOHOL_STUDENT : List String :=
  ["bebes", "bebe", "beber", "alcohol", "cerveza", "vino"]

/-- Embeds `HABITOS_ALCOHOL_PATIENT`. -/
def HABITOS_ALCOHOL_PATIENT : List String :=
  ["bebo", "bebe", "alcohol", "cerveza", "vino", "copas", "whisky"]

/-- Embeds `FAMILIA_STUDENT`. -/
def FAMILIA_STUDENT : List String :=
  ["antecedentes familiares", "familia", "familiares", "historia familiar"]

/-- Embeds `FAMILIA_PATIENT`. -/
def FAMILIA_PATIENT : List String := ["padre", "madre", "hermano", "hermana", "familia"]

/-- Embeds `FAMILIA_EVENTOS`. -/
def FAMILIA_EVENTOS : List String :=
  ["infarto", "ictus", "muerte", "fallecio", "murio", "cardiaco", "cardiaca"]

/-- Embeds `B2_LOCALIZACION_STUDENT`. -/
def B2_LOCALIZACION_STUDENT : List String :=
  ["donde", "que parte", "zona", "sitio", "localizacion"]

/-- Embeds `B2_LOCALIZACION_PATIENT`. -/
def B2_LOCALIZACION_PATIENT : List String :=
  ["pecho", "torax", "brazo", "espalda", "hombro", "costado"]

/-- Embeds `B2_CARACTERISTICAS_STUDENT`. -/
def B2_CARACTERISTICAS_STUDENT : List String :=
  ["como es", "que tipo", "que sensacion", "opresivo", "punzante", "quemazon"]

/-- Embeds `B2_CARACTERISTICAS_PATIENT`. -/
def B2_CARACTERISTICAS_PATIENT : List String := ["opresivo", "punzante", "quemazon", "ardor"]

/-- Embeds `B2_IRRADIACION_STUDENT`. -/
def B2_IRRADIACION_STUDENT : List String := ["irrad", "se extiende", "hacia", "baja", "sube"]

/-- Embeds `B2_IRRADIACION_PATIENT`. -/
def B2_IRRADIACION_PATIENT : List String :=
  ["irrad", "brazo", "mandibula", "cuello", "espalda", "hombro"]

/-- Embeds `EvaluatorV3._contains_any`: plain substring membership of any keyword. -/
def contains_any (text : String) (kws : List String) : Bool :=
  kws.any (fun kw => kw ≠ "" && pyContains text kw)

/-- Embeds `EvaluatorV3._has_age_reference`. -/
def has_age_reference (text : String) : Bool :=
  hasTwoDigitToken text || pyContains text "anos"

/-- Embeds `EvaluatorV3._special_match` (lines 158–204): the explicitly enumerated
heuristic cross-reference between examinee and patient text. -/
def special_match (item_id : String) (student_text patient_text : String) : Bool :=
  if student_text = "" || patient_text = "" then false
  else if item_id = "B5_006" then
    contains_any student_text HABITOS_TABACO_STUDENT
    && contains_any patient_text HABITOS_TABACO_PATIENT
  else if item_id = "B5_007" then
    contains_any student_text HABITOS_TABACO_STUDENT
    && (hasBoundedNumber patient_text
        && contains_any patient_text ["cigarr", "paquete", "dia"])
  else if item_id = "B5_008" then
    contains_any student_text HABITOS_ALCOHOL_STUDENT
    && contains_any patient_text HABITOS_ALCOHOL_PATIENT
  else if item_id = "B5_009" then
    contains_any student_text HABITOS_ALCOHOL_STUDENT
    && (hasBoundedNumber patient_text
        || contains_any patient_text ["semana", "fines", "diario", "copas", "cerveza"])
  else if item_id = "B6_001" then
    contains_any student_text FAMILIA_STUDENT && contains_any patient_text FAMILIA_PATIENT
  else if item_id = "B6_002" then
    contains_any student_text FAMILIA_STUDENT && contains_any patient_text FAMILIA_PATIENT
    && contains_any patient_text FAMILIA_EVENTOS
  else if item_id = "B6_008" then
    contains_any student_text FAMILIA_STUDENT && contains_any patient_text FAMILIA_EVENTOS
    && has_age_reference patient_text
  else if item_id = "B2_004" then
    contains_any student_text B2_LOCALIZACION_STUDENT
    || (contains_any patient_text B2_LOCALIZACION_PATIENT
        && pyContains student_text "dolor")
  else if item_id = "B2_005" then
    contains_any student_text B2_CARACTERISTICAS_STUDENT
    || (contains_any patient_text B2_CARACTERISTICAS_PATIENT
        && pyContains student_text "dolor")
  else if item_id = "B2_006" then
    contains_any student_text B2_IRRADIACION_STUDENT
    || (contains_any patient_text B2_IRRADIACION_PATIENT
        && pyContains student_text "dolor")
  else false

/-- The item ids `_special_match` handles: the whitelist of the heuristic method. -/
def heuristicWhitelist : List String :=
  ["B5_006", "B5_007", "B5_008", "B5_009", "B6_001", "B6_002", "B6_008",
   "B2_004", "B2_005", "B2_006"]

/-- Result of evaluating one item (`evaluate_item`'s returned dict). -/
structure ItemResult where
  item_id : String
  label : String
  matched : Bool
  points : Nat
  method : String
  match_details : String
deriving Repr, DecidableEq

/-- The `for i, pattern in enumerate(compiled_patterns)` loop of `evaluate_item`,
carrying the running index. -/
def firstRegexHitAux (i : Nat) : List RegexPattern → String → Option (Nat × RegexPattern)
  | [], _ => none
  | p :: ps, text => if p.search text then some (i, p) else firstRegexHitAux (i + 1) ps text

/-- The first compiled pattern matching the text, with its index. -/
def firstRegexHit (patterns : List RegexPattern) (text : String) : Option (Nat × RegexPattern) :=
  firstRegexHitAux 0 patterns text

/-- The first keyword whose normalized form occurs word-bounded in the text (the
keyword loop of `evaluate_item`). -/
def firstKeywordHit (keywords : List String) (text : String) : Option String :=
  keywords.find? (fun kw => searchWordBounded (normalize_text kw) text)

/-- The label resolution `item.get("label", item.get("description", item_id))`. -/
def itemLabel (item : Item) : String :=
  item.label.getD (item.description.getD item.id)

/-- Embeds `EvaluatorV3.evaluate_item` (lines 206–277): regex first, then
keywords, then the heuristic cross-reference, else no match. -/
def evaluate_item (L : Loader) (item : Item) (student_text : String)
    (patient_text : String := "") : ItemResult :=
  match firstRegexHit (L.get_compiled_regex item.id) student_text with
  | some (i, pattern) =>
    { item_id := item.id, label := itemLabel item, matched := true, points := item.points
      method := "regex"
      match_details := "regex[" ++ toString i ++ "]: " ++ pattern.pattern }
  | none =>
    match firstKeywordHit item.keywords student_text with
    | some keyword =>
      { item_id := item.id, label := itemLabel item, matched := true, points := item.points
        method := "keywords", match_details := "keyword: " ++ keyword }
    | none =>
      if patient_text ≠ "" && special_match item.id student_text patient_text then
        { item_id := item.id, label := itemLabel item, matched := true
          points := item.points
          method := "heuristic", match_details := "override_by_patient" }
      else
        { item_id := item.id, label := itemLabel item, matched := false, points := 0
          method := "none", match_details := "" }

/-!
## `evaluate_transcript` and its result structure

Python `round(x, 1)` (round half to even) is modelled exactly over `ℚ`.
-/

/-- Round half to even to an integer. -/
def roundHalfEven (x : ℚ) : ℤ :=
  let f := ⌊x⌋
  let r := x - f
  if r < 1 / 2 then f
  else if r > 1 / 2 then f + 1
  else if f % 2 = 0 then f else f + 1

/-- Models Python `round(x, 1)`. -/
def round1 (x : ℚ) : ℚ := (roundHalfEven (x * 10) : ℚ) / 10

/-- One per-block (or per-subsection) aggregation record. -/
structure BlockResult where
  max_points : Nat
  points_obtained : Nat
  items_total : Nat
  items_matched : Nat
  percentage : ℚ
deriving Repr, DecidableEq

/-- The `summary` record of an evaluation. -/
structure Summary where
  total_items_evaluated : Nat
  total_items_matched : Nat
  match_rate : ℚ
  student_lines_count : Nat
  student_text_length : Nat
deriving Repr, DecidableEq

/-- The full output of `evaluate_transcript`. -/
structure EvaluationResult where
  caso_id : String
  timestamp : String
  max_points_case : Nat
  min_points_case : ℤ
  points_obtained : Nat
  percentage : ℚ
  passed : Bool
  subsections_b7_activas : List String
  blocks : List (String × BlockResult)
  b7_subsections : List (String × BlockResult)
  items_evaluated : List ItemResult
  summary : Summary
deriving Repr, DecidableEq

/-- Embeds `EvaluatorV3.evaluate_transcript` (lines 279–405).  The wall clock read
by `datetime.now().isoformat()` is an explicit input `now`, stored unchanged in
the `timestamp` field exactly as the code does. -/
def evaluate_transcript (L : Loader) (now : String) (transcript : String)
    (case_data : CaseData) (caso_id : Option String := none) : EvaluationResult :=
  let adapted := adapt_to_case L case_data
  let preprocessed := preprocess_transcript_by_role transcript
  let student_lines :=
    if preprocessed.student_lines.isEmpty then extract_student_lines transcript
    else preprocessed.student_lines
  let student_text := String.intercalate " " student_lines
  let student_text_normalized :=
    if preprocessed.student_text_normalized = "" then normalize_text student_text
    else preprocessed.student_text_normalized
  let patient_text_normalized := preprocessed.patient_text_normalized
  let items_evaluated := adapted.items_activos.map
    (fun item => evaluate_item L item student_text_normalized patient_text_normalized)
  let points_obtained := (items_evaluated.map ItemResult.points).sum
  let blocks_results := adapted.blocks_activos.map (fun p =>
    let block_items_ids := (L.get_items_for_block p.1).map Item.id
    let block_items_results := items_evaluated.filter (fun r => r.item_id ∈ block_items_ids)
    let block_points := (block_items_results.map ItemResult.points).sum
    (p.1,
     { max_points := p.2
       points_obtained := block_points
       items_total := block_items_results.length
       items_matched := (block_items_results.filter (fun r => r.matched)).length
       percentage :=
         if p.2 > 0 then round1 ((block_points : ℚ) / (p.2 : ℚ) * 100) else 0
       : BlockResult }))
  let b7_subsections_results :=
    if (blocks_results.map Prod.fst).contains "B7_ANAMNESIS_APARATOS" then
      adapted.subsections_b7_activas.map (fun subsection =>
        let subsection_items := L.get_items_for_subsection subsection
        let subsection_items_ids := subsection_items.map Item.id
        let subsection_results :=
          items_evaluated.filter (fun r => r.item_id ∈ subsection_items_ids)
        let subsection_points := (subsection_results.map ItemResult.points).sum
        let subsection_max := (subsection_items.map Item.points).sum
        (subsection,
         { max_points := subsection_max
           points_obtained := subsection_points
           items_total := subsection_results.length
           items_matched := (subsection_results.filter (fun r => r.matched)).length
           percentage :=
             if subsection_max > 0 then
               round1 ((subsection_points : ℚ) / (subsection_max : ℚ) * 100)
             else 0
           : BlockResult }))
    else []
  let percentage :=
    if adapted.max_points_case > 0 then
      round1 ((points_obtained : ℚ) / (adapted.max_points_case : ℚ) * 100)
    else 0
  let passed := (points_obtained : ℤ) ≥ adapted.min_points_case
  let matched_count := (items_evaluated.filter (fun r => r.matched)).length
  { caso_id :=
      match caso_id with
      | some s => if s = "" then (case_data.id.getD "unknown") else s
      | none => case_data.id.getD "unknown"
    timestamp := now
    max_points_case := adapted.max_points_case
    min_points_case := adapted.min_points_case
    points_obtained := points_obtained
    percentage := percentage
    passed := passed
    subsections_b7_activas := adapted.subsections_b7_activas
    blocks := blocks_results
    b7_subsections := b7_subsections_results
    items_evaluated := items_evaluated
    summary :=
      { total_items_evaluated := items_evaluated.length
        total_items_matched := matched_count
        match_rate :=
          if items_evaluated.length ≠ 0 then
            round1 ((matched_count : ℚ) / (items_evaluated.length : ℚ) * 100)
          else 0
        student_lines_count := student_lines.length
        student_text_length := student_text.data.length } }

/-!
## Proof-support definitions and concrete fixtures
-/

/-- The point total the adapter assigns to a list of items: sum of `points` over
its non-`no_applicable` members (`globalTotalPoints` of the whole item list). -/
def ptsOf (l : List Item) : Nat :=
  ((l.filter (fun it => !it.no_applicable)).map Item.points).sum

/-- Metadata with the production passing percentage 57.2. -/
def mdFix : Metadata := { passing_percentage := (572 : ℚ) / 10 }

/-- Fixture: a universal block and a systems-review block. -/
def blockB0 : Block := { block_id := "B0_INTRODUCCION", max_points := 2 }

/-- Fixture: the systems-review block. -/
def blockB7 : Block := { block_id := "B7_ANAMNESIS_APARATOS", max_points := 3 }

/-- Fixture: the social-history universal block. -/
def blockB5 : Block := { block_id := "B5_SOCIAL", max_points := 1 }

/-- Fixture item in a universal block. -/
def itemU1 : Item :=
  { id := "B0_001", block_id := "B0_INTRODUCCION", points := 2, keywords := ["hola"] }

/-- Fixture item in a systems-review subsection. -/
def itemS1 : Item :=
  { id := "B7_001", block_id := "B7_ANAMNESIS_APARATOS",
    subsection := some "CARDIOVASCULAR", points := 3, keywords := ["pecho"] }

/-- Fixture loader for the adaptation claims. -/
def loaderC4 : Loader := { metadata := mdFix, blocks := [blockB0, blockB7], items := [itemU1, itemS1] }

/-- Fixture case with no symptoms at all (fallback activation). -/
def caseEmpty : CaseData := {}

/-- Fixture loader whose single universal item is worth 10 points. -/
def loaderC5 : Loader :=
  { metadata := mdFix, blocks := [blockB0]
    items := [{ id := "B0_010", block_id := "B0_INTRODUCCION", points := 10 }] }

/-- Fixture item: a plain keyword item about smoking, not in the heuristic
whitelist. -/
def itemTabaco : Item :=
  { id := "B5_100", block_id := "B5_SOCIAL", points := 1, keywords := ["tabaco"] }

/-- Fixture loader for the speaker-isolation claim. -/
def loaderC1 : Loader := { metadata := mdFix, blocks := [blockB5], items := [itemTabaco] }

/-- The C1 failing input: a transcript consisting solely of patient-tagged lines
that mention smoking. -/
def patientOnlyTranscript : String := "[PACIENTE]: Fumo tabaco a diario."

/-- Fixture item flagged `no_applicable` but carrying positive points. -/
def itemNA : Item :=
  { id := "B0_NA", block_id := "B0_INTRODUCCION", points := 5, no_applicable := true
    keywords := ["nombre"] }

/-- Fixture item worth one point, matched by the C10 transcript. -/
def itemHola : Item :=
  { id := "B0_001", block_id := "B0_INTRODUCCION", points := 1, keywords := ["hola"] }

/-- Fixture loader for the `no_applicable` scoring claim. -/
def loaderC10 : Loader := { metadata := mdFix, blocks := [blockB0], items := [itemHola, itemNA] }

/-- The C10 transcript: the examinee triggers both the applicable and the
non-applicable item. -/
def transcriptC10 : String := "[ESTUDIANTE]: hola cual es su nombre"

/-- A raw checklist whose only block declares `max_points = 5` while its items
sum to 3: the C2 inconsistent-totals input. -/
def rawInconsistent : RawChecklist :=
  { metadata := some mdFix
    blocks := some [{ block_id := "B0_INTRODUCCION", max_points := 5 }]
    items := some [{ id := "B0_001", block_id := "B0_INTRODUCCION", points := 3 }] }

/-- A raw checklist that passes every check of `validate_structure`. -/
def rawConsistent : RawChecklist :=
  { metadata := some mdFix
    blocks := some [blockB0]
    items := some [itemU1] }

/-- Fixture item whose first regex pattern is invalid (Python: unbalanced
parenthesis raises `re.error`) and whose second is a valid literal. -/
def itemBadRegex : Item :=
  { id := "B5_100", block_id := "B5_SOCIAL", points := 1
    regex := ["(", "tabaco"], keywords := ["cigarrillos"] }

/-- The raw checklist containing `itemBadRegex`. -/
def rawC8 : RawChecklist :=
  { metadata := some mdFix, blocks := some [blockB5], items := some [itemBadRegex] }

/-- The loader obtained from `rawC8`. -/
def loaderC8 : Loader := { metadata := mdFix, blocks := [blockB5], items := [itemBadRegex] }

/-- Fixture item for the matching-order claim: both regex and keywords. -/
def itemC6 : Item :=
  { id := "B5_100", block_id := "B5_SOCIAL", points := 2
    regex := ["tabaco"], keywords := ["fumas"] }

/-- Fixture loader for the matching-order claim. -/
def loaderC6 : Loader := { metadata := mdFix, blocks := [blockB5], items := [itemC6] }

/-- No two adjacent whitespace characters. -/
def noAdjSpace : List Char → Bool
  | c :: d :: rest => (!(isSpaceChar c && isSpaceChar d)) && noAdjSpace (d :: rest)
  | _ => true

/-- The first character, if any, is not whitespace. -/
def headNotSpace : List Char → Bool
  | [] => true
  | c :: _ => !isSpaceChar c

/-- The last character, if any, is not whitespace. -/
def lastNotSpace (l : List Char) : Prop :=
  ∀ c, l.getLast? = some c → isSpaceChar c = false

/-- The canonicity property enjoyed by every character surviving normalization. -/
def goodCh (c : Char) : Prop :=
  c = ' ' ∨ (isWordChar c = true ∧ pyLowerChar c = c ∧ nfdChar c = [c]
    ∧ isCombining c = false)

/-!
## Character-level lemmas for normalization idempotence
-/

/-- A whitespace character is never a word character. -/
theorem not_word_of_space {c : Char} (h : isSpaceChar c = true) : isWordChar c = false := by
  simp only [isSpaceChar, Bool.or_eq_true, decide_eq_true_eq] at h
  rcases h with ((((h | h) | h) | h) | h) | h <;> subst h <;> decide

/-- `pyLowerChar` either fixes a character or returns a table output. -/
theorem pyLowerChar_cases (c : Char) :
    pyLowerChar c = c ∨ pyLowerChar c ∈ lowerTable.map Prod.snd := by
  unfold pyLowerChar
  cases h : lowerTable.find? (fun p => p.1 = c) with
  | none => exact Or.inl rfl
  | some p => exact Or.inr (List.mem_map_of_mem Prod.snd (List.mem_of_find?_eq_some h))

/-- A character outside the lower-casing table is fixed by `pyLowerChar`. -/
theorem pyLowerChar_eq_self_of_not_mem {c : Char} (h : c ∉ lowerTable.map Prod.fst) :
    pyLowerChar c = c := by
  unfold pyLowerChar
  cases hf : lowerTable.find? (fun p => p.1 = c) with
  | none => rfl
  | some p =>
    exfalso
    have hp := List.find?_some hf
    have hmem := List.mem_of_find?_eq_some hf
    simp only [decide_eq_true_eq] at hp
    exact h (hp ▸ List.mem_map_of_mem Prod.fst hmem)

/-- Every output of the lower-casing table is outside its domain. -/
theorem lowerTable_snd_not_mem_fst :
    ∀ d ∈ lowerTable.map Prod.snd, d ∉ lowerTable.map Prod.fst := by decide

/-- `pyLowerChar` never returns an upper-case (table-domain) character. -/
theorem pyLowerChar_not_mem_domain (c : Char) :
    pyLowerChar c ∉ lowerTable.map Prod.fst := by
  rcases pyLowerChar_cases c with h | h
  · rw [h]
    intro hc
    unfold pyLowerChar at h
    cases hf : lowerTable.find? (fun p => p.1 = c) with
    | none =>
      have := List.find?_eq_none.mp hf
      rcases List.mem_map.mp hc with ⟨p, hp, hpc⟩
      have hne := this p hp
      simp only [decide_eq_true_eq] at hne
      exact hne hpc
    | some p =>
      have hp := List.find?_some hf
      have hmem := List.mem_of_find?_eq_some hf
      simp only [decide_eq_true_eq] at hp
      rw [hf] at h
      simp only at h
      have : p.2 ∈ lowerTable.map Prod.snd := List.mem_map_of_mem Prod.snd hmem
      rw [h] at this
      exact lowerTable_snd_not_mem_fst c this hc
  · exact lowerTable_snd_not_mem_fst _ h

/-- `pyLowerChar` is idempotent. -/
theorem pyLowerChar_idem (c : Char) : pyLowerChar (pyLowerChar c) = pyLowerChar c :=
  pyLowerChar_eq_self_of_not_mem (pyLowerChar_not_mem_domain c)

/-- A character outside the decomposition table is its own decomposition. -/
theorem nfdChar_eq_self_of_not_mem {c : Char} (h : c ∉ nfdTable.map Prod.fst) :
    nfdChar c = [c] := by
  unfold nfdChar
  cases hf : nfdTable.find? (fun p => p.1 = c) with
  | none => rfl
  | some p =>
    exfalso
    have hp := List.find?_some hf
    have hmem := List.mem_of_find?_eq_some hf
    simp only [decide_eq_true_eq] at hp
    exact h (hp ▸ List.mem_map_of_mem Prod.fst hmem)

/-- Non-combining members of the decomposition of a lower-case-table-free key are
fixed by both `pyLowerChar` and `nfdChar`. -/
theorem nfdTable_members_stable :
    ∀ p ∈ nfdTable, p.1 ∉ lowerTable.map Prod.fst →
      ∀ d ∈ p.2, isCombining d = false →
        pyLowerChar d = d ∧ nfdChar d = [d] := by decide

/-- Key stability lemma: any non-combining character of the decomposition of a
lower-cased character is fixed by lower-casing and by decomposition. -/
theorem stable_of_mem_nfd_lower {c d : Char} (hd : d ∈ nfdChar (pyLowerChar c))
    (hnc : isCombining d = false) : pyLowerChar d = d ∧ nfdChar d = [d] := by
  set e := pyLowerChar c with he
  unfold nfdChar at hd
  cases hf : nfdTable.find? (fun p => p.1 = e) with
  | none =>
    rw [hf] at hd
    simp only [Option.map_none, Option.getD_none, List.mem_singleton] at hd
    subst hd
    exact ⟨pyLowerChar_idem c, nfdChar_eq_self_of_not_mem (by
      intro hmem
      rcases List.mem_map.mp hmem with ⟨p, hp, hpd⟩
      have := List.find?_eq_none.mp hf p hp
      simp only [decide_eq_true_eq] at this
      exact this hpd)⟩
  | some p =>
    rw [hf] at hd
    simp only [Option.map_some, Option.getD_some] at hd
    have hp := List.find?_some hf
    have hmem := List.mem_of_find?_eq_some hf
    simp only [decide_eq_true_eq] at hp
    have hkey : p.1 ∉ lowerTable.map Prod.fst := by
      rw [hp, he]
      exact pyLowerChar_not_mem_domain c
    exact nfdTable_members_stable p hmem hkey d hd hnc

/-!
## List-level lemmas for normalization idempotence
-/

theorem noAdjSpace_cons_cons (c d : Char) (rest : List Char) :
    noAdjSpace (c :: d :: rest)
      = ((!(isSpaceChar c && isSpaceChar d)) && noAdjSpace (d :: rest)) := rfl

theorem noAdjSpace_tail {c : Char} {l : List Char} (h : noAdjSpace (c :: l) = true) :
    noAdjSpace l = true := by
  cases l with
  | nil => rfl
  | cons d rest =>
    rw [noAdjSpace_cons_cons] at h
    exact (Bool.and_eq_true_iff.mp h).2

theorem collapseAux_cons_space_true {c : Char} {cs : List Char}
    (h : isSpaceChar c = true) : collapseAux true (c :: cs) = collapseAux true cs := by
  simp [collapseAux, h]

theorem collapseAux_cons_space_false {c : Char} {cs : List Char}
    (h : isSpaceChar c = true) :
    collapseAux false (c :: cs) = ' ' :: collapseAux true cs := by
  simp [collapseAux, h]

theorem collapseAux_cons_nonspace {c : Char} {cs : List Char} (b : Bool)
    (h : isSpaceChar c = false) : collapseAux b (c :: cs) = c :: collapseAux false cs := by
  simp [collapseAux, h]

/-- A map whose function fixes every member is the identity. -/
theorem map_eq_self_of_forall {f : Char → Char} :
    ∀ {l : List Char}, (∀ c ∈ l, f c = c) → l.map f = l
  | [], _ => rfl
  | c :: cs, h => by
    simp only [List.map_cons, h c (List.mem_cons_self c cs),
      map_eq_self_of_forall (fun d hd => h d (List.mem_cons_of_mem c hd))]

/-- A flatMap whose function decomposes every member to itself is the identity. -/
theorem flatMap_eq_self_of_forall {g : Char → List Char} :
    ∀ {l : List Char}, (∀ c ∈ l, g c = [c]) → l.flatMap g = l
  | [], _ => rfl
  | c :: cs, h => by
    simp only [List.flatMap_cons, h c (List.mem_cons_self c cs),
      flatMap_eq_self_of_forall (fun d hd => h d (List.mem_cons_of_mem c hd))]
    rfl

/-- Members of the output of `collapseAux` are either the inserted single space
or non-whitespace members of the input. -/
theorem mem_collapseAux :
    ∀ (b : Bool) (l : List Char), ∀ d ∈ collapseAux b l,
      d = ' ' ∨ (d ∈ l ∧ isSpaceChar d = false)
  | _, [], d, hd => by simp [collapseAux] at hd
  | b, c :: cs, d, hd => by
    by_cases hc : isSpaceChar c = true
    · cases b with
      | true =>
        rw [collapseAux_cons_space_true hc] at hd
        rcases mem_collapseAux true cs d hd with h | ⟨h1, h2⟩
        · exact Or.inl h
        · exact Or.inr ⟨List.mem_cons_of_mem c h1, h2⟩
      | false =>
        rw [collapseAux_cons_space_false hc] at hd
        rcases List.mem_cons.mp hd with h | h
        · exact Or.inl h
        · rcases mem_collapseAux true cs d h with h | ⟨h1, h2⟩
          · exact Or.inl h
          · exact Or.inr ⟨List.mem_cons_of_mem c h1, h2⟩
    · rw [collapseAux_cons_nonspace b (Bool.eq_false_iff.mpr hc)] at hd
      rcases List.mem_cons.mp hd with h | h
      · subst h
        exact Or.inr ⟨List.mem_cons_self d cs, Bool.eq_false_iff.mpr hc⟩
      · rcases mem_collapseAux false cs d h with h | ⟨h1, h2⟩
        · exact Or.inl h
        · exact Or.inr ⟨List.mem_cons_of_mem c h1, h2⟩

/-- `collapseAux` produces no adjacent whitespace, and with the flag set its
output starts with a non-whitespace character. -/
theorem collapseAux_noAdj :
    ∀ l : List Char, headNotSpace (collapseAux true l) = true
      ∧ noAdjSpace (collapseAux true l) = true
      ∧ noAdjSpace (collapseAux false l) = true
  | [] => by refine ⟨rfl, rfl, rfl⟩
  | c :: cs => by
    obtain ⟨ih1, ih2, ih3⟩ := collapseAux_noAdj cs
    by_cases hc : isSpaceChar c = true
    · refine ⟨?_, ?_, ?_⟩
      · rw [collapseAux_cons_space_true hc]
        exact ih1
      · rw [collapseAux_cons_space_true hc]
        exact ih2
      · rw [collapseAux_cons_space_false hc]
        cases hy : collapseAux true cs with
        | nil => rfl
        | cons d rest =>
          rw [noAdjSpace_cons_cons]
          have hd : isSpaceChar d = false := by
            have := ih1
            rw [hy] at this
            simpa [headNotSpace] using this
          rw [hd]
          have := ih2
          rw [hy] at this
          simp [this]
    · have hcf : isSpaceChar c = false := Bool.eq_false_iff.mpr hc
      have hmain : noAdjSpace (c :: collapseAux false cs) = true := by
        cases hx : collapseAux false cs with
        | nil => rfl
        | cons d rest =>
          rw [noAdjSpace_cons_cons, hcf]
          have := ih3
          rw [hx] at this
          simp [this]
      refine ⟨?_, ?_, ?_⟩
      · rw [collapseAux_cons_nonspace true hcf]
        simp [headNotSpace, hcf]
      · rw [collapseAux_cons_nonspace true hcf]
        exact hmain
      · rw [collapseAux_cons_nonspace false hcf]
        exact hmain

/-- On lists whose only whitespace is a single space and with no adjacent
whitespace, `collapseAux` is the identity. -/
theorem collapseAux_eq_self :
    ∀ l : List Char, (∀ c ∈ l, isSpaceChar c = true → c = ' ')
      → noAdjSpace l = true →
      collapseAux false l = l ∧ (headNotSpace l = true → collapseAux true l = l)
  | [] => fun _ _ => ⟨rfl, fun _ => rfl⟩
  | c :: cs => by
    intro hsp hadj
    have hcs : ∀ d ∈ cs, isSpaceChar d = true → d = ' ' :=
      fun d hd => hsp d (List.mem_cons_of_mem c hd)
    obtain ⟨ih1, ih2⟩ := collapseAux_eq_self cs hcs (noAdjSpace_tail hadj)
    by_cases hc : isSpaceChar c = true
    · have hce : c = ' ' := hsp c (List.mem_cons_self c cs) hc
      have hhead : headNotSpace cs = true := by
        cases cs with
        | nil => rfl
        | cons d rest =>
          rw [noAdjSpace_cons_cons] at hadj
          have := (Bool.and_eq_true_iff.mp hadj).1
          simp only [hc, Bool.true_and, Bool.not_eq_eq_eq_not, Bool.not_true] at this
          simpa [headNotSpace] using this
      constructor
      · rw [collapseAux_cons_space_false hc, ih2 hhead, hce]
      · intro hh
        exfalso
        simp [headNotSpace, hc] at hh
    · have hcf : isSpaceChar c = false := Bool.eq_false_iff.mpr hc
      exact ⟨by rw [collapseAux_cons_nonspace false hcf, ih1],
        fun _ => by rw [collapseAux_cons_nonspace true hcf, ih1]⟩

/-- `dropWhile` along a predicate only removes elements. -/
theorem mem_of_mem_dropWhile {p : Char → Bool} :
    ∀ {l : List Char}, ∀ d ∈ l.dropWhile p, d ∈ l
  | [], d, hd => hd
  | c :: cs, d, hd => by
    rw [List.dropWhile_cons] at hd
    by_cases hc : p c = true
    · rw [if_pos hc] at hd
      exact List.mem_cons_of_mem c (mem_of_mem_dropWhile d hd)
    · rw [if_neg hc] at hd
      exact hd

theorem noAdjSpace_dropWhile :
    ∀ {l : List Char}, noAdjSpace l = true → noAdjSpace (l.dropWhile isSpaceChar) = true
  | [], h => h
  | c :: cs, h => by
    rw [List.dropWhile_cons]
    by_cases hc : isSpaceChar c = true
    · rw [if_pos hc]
      exact noAdjSpace_dropWhile (noAdjSpace_tail h)
    · rw [if_neg hc]
      exact h

theorem headNotSpace_dropWhile :
    ∀ l : List Char, headNotSpace (l.dropWhile isSpaceChar) = true
  | [] => rfl
  | c :: cs => by
    rw [List.dropWhile_cons]
    by_cases hc : isSpaceChar c = true
    · rw [if_pos hc]
      exact headNotSpace_dropWhile cs
    · rw [if_neg hc]
      simpa [headNotSpace] using Bool.eq_false_iff.mpr hc

/-- `dropWhile` is the identity when the head is not removed. -/
theorem dropWhile_eq_self_of_headNotSpace {l : List Char}
    (h : headNotSpace l = true) : l.dropWhile isSpaceChar = l := by
  cases l with
  | nil => rfl
  | cons c cs =>
    simp only [headNotSpace, Bool.not_eq_eq_eq_not, Bool.not_true] at h
    rw [List.dropWhile_cons, if_neg (by simp [h])]

/-- Unfolding equation: trailing-space removal when the tail collapses away. -/
theorem dropTrailingSpaces_cons_eq_nil {c : Char} {cs : List Char}
    (h : dropTrailingSpaces cs = []) :
    dropTrailingSpaces (c :: cs) = if isSpaceChar c then [] else [c] := by
  show (match dropTrailingSpaces cs with
    | [] => if isSpaceChar c then [] else [c]
    | r => c :: r) = _
  rw [h]

/-- Unfolding equation: trailing-space removal when the tail survives. -/
theorem dropTrailingSpaces_cons_eq_cons {c : Char} {cs : List Char} {d : Char}
    {rest : List Char} (h : dropTrailingSpaces cs = d :: rest) :
    dropTrailingSpaces (c :: cs) = c :: d :: rest := by
  show (match dropTrailingSpaces cs with
    | [] => if isSpaceChar c then [] else [c]
    | r => c :: r) = _
  rw [h]

theorem mem_dropTrailingSpaces :
    ∀ l : List Char, ∀ d ∈ dropTrailingSpaces l, d ∈ l
  | [], d, hd => hd
  | c :: cs, d, hd => by
    cases hx : dropTrailingSpaces cs with
    | nil =>
      rw [dropTrailingSpaces_cons_eq_nil hx] at hd
      by_cases hc : isSpaceChar c = true
      · simp [hc] at hd
      · simp only [hc, Bool.false_eq_true, if_false, List.mem_singleton] at hd
        subst hd
        exact List.mem_cons_self d cs
    | cons e rest =>
      rw [dropTrailingSpaces_cons_eq_cons hx] at hd
      rcases List.mem_cons.mp hd with h | h
      · subst h
        exact List.mem_cons_self d cs
      · exact List.mem_cons_of_mem c (mem_dropTrailingSpaces cs d (hx ▸ h))

theorem noAdjSpace_dropTrailingSpaces :
    ∀ l : List Char, noAdjSpace l = true → noAdjSpace (dropTrailingSpaces l) = true
  | [], h => h
  | c :: cs, h => by
    have ih := noAdjSpace_dropTrailingSpaces cs (noAdjSpace_tail h)
    cases hx : dropTrailingSpaces cs with
    | nil =>
      rw [dropTrailingSpaces_cons_eq_nil hx]
      by_cases hc : isSpaceChar c = true <;> simp [hc, noAdjSpace]
    | cons d rest =>
      rw [dropTrailingSpaces_cons_eq_cons hx, noAdjSpace_cons_cons]
      have hpair : (!(isSpaceChar c && isSpaceChar d)) = true := by
        cases cs with
        | nil => simp [dropTrailingSpaces] at hx
        | cons e cs2 =>
          have he : e = d := by
            cases hy : dropTrailingSpaces cs2 with
            | nil =>
              rw [dropTrailingSpaces_cons_eq_nil hy] at hx
              by_cases hc2 : isSpaceChar e = true
              · simp [hc2] at hx
              · simp only [hc2, Bool.false_eq_true, if_false] at hx
                exact (List.cons.injEq e [] d rest).mp hx |>.1
            | cons f rest2 =>
              rw [dropTrailingSpaces_cons_eq_cons hy] at hx
              exact (List.cons.injEq e (f :: rest2) d rest).mp hx |>.1
          subst he
          rw [noAdjSpace_cons_cons] at h
          exact (Bool.and_eq_true_iff.mp h).1
      rw [hx] at ih
      simp [hpair, ih]

theorem headNotSpace_dropTrailingSpaces {l : List Char}
    (h : headNotSpace l = true) : headNotSpace (dropTrailingSpaces l) = true := by
  cases l with
  | nil => exact h
  | cons c cs =>
    cases hx : dropTrailingSpaces cs with
    | nil =>
      rw [dropTrailingSpaces_cons_eq_nil hx]
      by_cases hc : isSpaceChar c = true
      · simp [hc, headNotSpace]
      · simp [hc, headNotSpace]
    | cons d rest =>
      rw [dropTrailingSpaces_cons_eq_cons hx]
      exact h

theorem lastNotSpace_dropTrailingSpaces :
    ∀ l : List Char, lastNotSpace (dropTrailingSpaces l)
  | [] => fun c hc => by simp [dropTrailingSpaces] at hc
  | c :: cs => by
    intro d hd
    cases hx : dropTrailingSpaces cs with
    | nil =>
      rw [dropTrailingSpaces_cons_eq_nil hx] at hd
      by_cases hc : isSpaceChar c = true
      · simp [hc] at hd
      · simp only [hc, Bool.false_eq_true, if_false, List.getLast?_singleton,
          Option.some.injEq] at hd
        subst hd
        exact Bool.eq_false_iff.mpr hc
    | cons e rest =>
      rw [dropTrailingSpaces_cons_eq_cons hx, List.getLast?_cons_cons] at hd
      exact lastNotSpace_dropTrailingSpaces cs d (by rw [hx]; exact hd)

/-- Trailing-space removal is the identity when the last character is not
whitespace. -/
theorem dropTrailingSpaces_eq_self :
    ∀ {l : List Char}, lastNotSpace l → dropTrailingSpaces l = l
  | [], _ => rfl
  | c :: cs, h => by
    cases cs with
    | nil =>
      have hc : isSpaceChar c = false := h c (by simp)
      rw [dropTrailingSpaces_cons_eq_nil (rfl : dropTrailingSpaces [] = []), hc]
      simp
    | cons e cs2 =>
      have hcs : lastNotSpace (e :: cs2) := by
        intro d hd
        exact h d (by rwa [List.getLast?_cons_cons])
      have ih := dropTrailingSpaces_eq_self hcs
      exact dropTrailingSpaces_cons_eq_cons ih

theorem goodCh_space_eq {c : Char} (hg : goodCh c) (hs : isSpaceChar c = true) :
    c = ' ' := by
  rcases hg with h | ⟨hw, _, _, _⟩
  · exact h
  · exact absurd hw (by rw [not_word_of_space hs]; simp)

/-- Every character of `normalizeChars m` is canonical. -/
theorem goodCh_of_mem_normalizeChars {m : List Char} :
    ∀ c ∈ normalizeChars m, goodCh c := by
  intro c hc
  unfold normalizeChars at hc
  rcases mem_collapseAux false _ c hc with h | ⟨h1, h2⟩
  · exact Or.inl h
  · rcases List.mem_map.mp h1 with ⟨d, hd, hdc⟩
    rcases List.mem_filter.mp hd with ⟨hdm, hdnc⟩
    have hdnc2 : isCombining d = false := by simpa using hdnc
    rcases List.mem_flatMap.mp hdm with ⟨e, he, hde⟩
    rcases List.mem_map.mp he with ⟨f, _, hfe⟩
    subst hfe
    obtain ⟨hfix1, hfix2⟩ := stable_of_mem_nfd_lower hde hdnc2
    by_cases hw : isWordChar d = true
    · have : c = d := by
        rw [← hdc]
        simp [hw]
      subst this
      exact Or.inr ⟨hw, hfix1, hfix2, hdnc2⟩
    · by_cases hsp : isSpaceChar d = true
      · have : c = d := by
          rw [← hdc]
          simp [hsp]
        subst this
        exact absurd hsp (by simp [h2])
      · have : c = ' ' := by
          rw [← hdc]
          simp [Bool.eq_false_iff.mpr hw, Bool.eq_false_iff.mpr hsp]
        exact Or.inl this

/-- A canonical duplicate-free-whitespace list with non-whitespace ends is a
fixed point of the whole normalization pipeline. -/
theorem canonical_fixed {l : List Char} (hg : ∀ c ∈ l, goodCh c)
    (hadj : noAdjSpace l = true) (hh : headNotSpace l = true) (hl : lastNotSpace l) :
    pyStripChars (normalizeChars l) = l := by
  have hlow : ∀ c ∈ l, pyLowerChar c = c := by
    intro c hc
    rcases hg c hc with h | ⟨_, h2, _, _⟩
    · rw [h]; decide
    · exact h2
  have hnfd : ∀ c ∈ l, nfdChar c = [c] := by
    intro c hc
    rcases hg c hc with h | ⟨_, _, h3, _⟩
    · rw [h]; decide
    · exact h3
  have hcomb : ∀ c ∈ l, (!isCombining c) = true := by
    intro c hc
    rcases hg c hc with h | ⟨_, _, _, h4⟩
    · rw [h]; decide
    · simp [h4]
  have hsub : ∀ c ∈ l,
      (if !isWordChar c && !isSpaceChar c then ' ' else c) = c := by
    intro c hc
    rcases hg c hc with h | ⟨hw, _, _, _⟩
    · rw [h]
      simp [isSpaceChar]
    · simp [hw]
  have hspok : ∀ c ∈ l, isSpaceChar c = true → c = ' ' :=
    fun c hc => goodCh_space_eq (hg c hc)
  have hpipeline : normalizeChars l = l := by
    unfold normalizeChars
    rw [map_eq_self_of_forall hlow, flatMap_eq_self_of_forall hnfd,
      List.filter_eq_self.mpr hcomb, map_eq_self_of_forall hsub]
    exact (collapseAux_eq_self l hspok hadj).1
  rw [hpipeline]
  unfold pyStripChars
  rw [dropWhile_eq_self_of_headNotSpace hh, dropTrailingSpaces_eq_self hl]

/-- The four canonicity properties hold of `pyStripChars (normalizeChars m)`. -/
theorem normalized_props (m : List Char) :
    (∀ c ∈ pyStripChars (normalizeChars m), goodCh c)
      ∧ noAdjSpace (pyStripChars (normalizeChars m)) = true
      ∧ headNotSpace (pyStripChars (normalizeChars m)) = true
      ∧ lastNotSpace (pyStripChars (normalizeChars m)) := by
  have hmem : ∀ c ∈ pyStripChars (normalizeChars m), c ∈ normalizeChars m := by
    intro c hc
    exact mem_of_mem_dropWhile c
      (mem_dropTrailingSpaces _ c hc)
  refine ⟨fun c hc => goodCh_of_mem_normalizeChars c (hmem c hc), ?_, ?_, ?_⟩
  · exact noAdjSpace_dropTrailingSpaces _
      (noAdjSpace_dropWhile (collapseAux_noAdj _).2.2)
  · exact headNotSpace_dropTrailingSpaces (headNotSpace_dropWhile _)
  · exact lastNotSpace_dropTrailingSpaces _

/-!
## Summation lemmas for checklist adaptation
-/

theorem ptsOf_nil : ptsOf [] = 0 := rfl

theorem ptsOf_cons (it : Item) (l : List Item) :
    ptsOf (it :: l) = (if it.no_applicable then 0 else it.points) + ptsOf l := by
  unfold ptsOf
  cases h : it.no_applicable <;> simp [List.filter_cons, h]

theorem ptsOf_append (l1 l2 : List Item) : ptsOf (l1 ++ l2) = ptsOf l1 + ptsOf l2 := by
  induction l1 with
  | nil => simp [ptsOf_nil]
  | cons it l ih => simp [ptsOf_cons, ih, Nat.add_assoc]

theorem ptsOf_flatMap (K : List String) (g : String → List Item) :
    ptsOf (K.flatMap g) = (K.map (fun k => ptsOf (g k))).sum := by
  induction K with
  | nil => rfl
  | cons k K ih => simp [List.flatMap_cons, ptsOf_append, ih]

theorem ptsOf_filter_le (items : List Item) (q : Item → Bool) :
    ptsOf (items.filter q) ≤ ptsOf items := by
  induction items with
  | nil => exact Nat.le_refl 0
  | cons it its ih =>
    rw [List.filter_cons]
    by_cases hq : q it = true
    · rw [if_pos hq, ptsOf_cons, ptsOf_cons]
      exact Nat.add_le_add_left ih _
    · rw [if_neg hq, ptsOf_cons]
      exact Nat.le_trans ih (Nat.le_add_left _ _)

theorem ptsOf_filter_or (items : List Item) (q r : Item → Bool)
    (hdisj : ∀ it ∈ items, ¬(q it = true ∧ r it = true)) :
    ptsOf (items.filter (fun it => q it || r it))
      = ptsOf (items.filter q) + ptsOf (items.filter r) := by
  induction items with
  | nil => rfl
  | cons it its ih =>
    have ihs := ih (fun x hx => hdisj x (List.mem_cons_of_mem it hx))
    have hd := hdisj it (List.mem_cons_self it its)
    simp only [List.filter_cons]
    by_cases hq : q it = true
    · have hr : r it = false := by
        cases hrv : r it with
        | false => rfl
        | true => exact absurd ⟨hq, hrv⟩ hd
      rw [if_pos (by simp [hq]), if_pos hq, if_neg (by simp [hr]), ptsOf_cons,
        ptsOf_cons, ihs]
      omega
    · have hqf : q it = false := Bool.eq_false_iff.mpr hq
      by_cases hr : r it = true
      · rw [if_pos (by simp [hr]), if_neg (by simp [hqf]), if_pos hr, ptsOf_cons,
          ptsOf_cons, ihs]
        omega
      · have hrf : r it = false := Bool.eq_false_iff.mpr hr
        rw [if_neg (by simp [hqf, hrf]), if_neg (by simp [hqf]), if_neg (by simp [hrf]),
          ihs]

theorem ptsOf_filter_eq_of_cover (items : List Item) (q : Item → Bool)
    (hcov : ∀ it ∈ items, it.no_applicable = false → q it = true) :
    ptsOf (items.filter q) = ptsOf items := by
  induction items with
  | nil => rfl
  | cons it its ih =>
    have ihs := ih (fun x hx => hcov x (List.mem_cons_of_mem it hx))
    rw [List.filter_cons]
    by_cases hq : q it = true
    · rw [if_pos hq, ptsOf_cons, ptsOf_cons, ihs]
    · have hna : it.no_applicable = true := by
        cases hna : it.no_applicable with
        | true => rfl
        | false => exact absurd (hcov it (List.mem_cons_self it its) hna) hq
      rw [if_neg hq, ptsOf_cons, hna, if_pos rfl, ihs, Nat.zero_add]

theorem sum_ptsOf_keys (items : List Item) (p : String → Item → Bool)
    (hexcl : ∀ it k1 k2, p k1 it = true → p k2 it = true → k1 = k2) :
    ∀ K : List String, K.Nodup →
      (K.map (fun k => ptsOf (items.filter (p k)))).sum
        = ptsOf (items.filter (fun it => K.any (fun k => p k it)))
  | [], _ => by
    simp only [List.map_nil, List.sum_nil, List.any_nil]
    rw [List.filter_false]
    rfl
  | k :: K, hnd => by
    have hk : k ∉ K := (List.nodup_cons.mp hnd).1
    have ih := sum_ptsOf_keys items p hexcl K (List.nodup_cons.mp hnd).2
    have hsplit := ptsOf_filter_or items (p k) (fun it => K.any (fun x => p x it))
      (by
        intro it _ hand
        rcases hand with ⟨h1, h2⟩
        rcases List.any_eq_true.mp h2 with ⟨k2, hk2, hpk2⟩
        exact hk ((hexcl it k2 k hpk2 h1) ▸ hk2))
    simp only [List.map_cons, List.sum_cons, List.any_cons]
    rw [ih, ← hsplit]

/-!
## Nodup lemmas for the adapter's set objects
-/

theorem nodup_addUnique {l : List String} (s : String) (h : l.Nodup) :
    (addUnique l s).Nodup := by
  unfold addUnique
  by_cases hs : s ∈ l
  · rwa [if_pos hs]
  · rw [if_neg hs]
    simpa [List.nodup_append] using ⟨h, hs⟩

theorem mem_addUnique_of_mem {l : List String} {x : String} (s : String) (h : x ∈ l) :
    x ∈ addUnique l s := by
  unfold addUnique
  by_cases hs : s ∈ l
  · rwa [if_pos hs]
  · rw [if_neg hs]
    exact List.mem_append_left _ h

theorem nodup_foldl_addUnique :
    ∀ (xs : List String) (acc : List String), acc.Nodup → (xs.foldl addUnique acc).Nodup
  | [], _, h => h
  | x :: xs, acc, h => nodup_foldl_addUnique xs (addUnique acc x) (nodup_addUnique x h)

theorem nodup_mapped_aux :
    ∀ (syms : List String) (acc : List String), acc.Nodup →
      (syms.foldl
        (fun acc s =>
          match symptomLookup s with
          | some subs => subs.foldl addUnique acc
          | none => acc) acc).Nodup
  | [], _, h => h
  | s :: syms, acc, h => by
    rw [List.foldl_cons]
    apply nodup_mapped_aux syms
    cases symptomLookup s with
    | none => exact h
    | some subs => exact nodup_foldl_addUnique subs acc h

theorem nodup_mapped_subsections (syms : List String) :
    (mapped_subsections syms).Nodup :=
  nodup_mapped_aux syms [] List.nodup_nil

theorem mem_sortStrings {s : String} {l : List String} : s ∈ sortStrings l ↔ s ∈ l :=
  (List.perm_insertionSort _ l).mem_iff

theorem nodup_sortStrings {l : List String} (h : l.Nodup) : (sortStrings l).Nodup :=
  ((List.perm_insertionSort _ l).nodup_iff).mpr h

theorem nodup_list_subsections (L : Loader) : L.list_subsections.Nodup :=
  nodup_sortStrings (List.nodup_dedup _)

theorem nodup_active_subsections (L : Loader) (syms : List String) :
    (sortStrings (get_active_subsections L syms)).Nodup := by
  apply nodup_sortStrings
  unfold get_active_subsections
  by_cases h : (mapped_subsections syms).isEmpty = true
  · rw [if_pos h]
    exact List.nodup_dedup _ |> nodup_sortStrings
  · rw [if_neg h]
    exact nodup_mapped_subsections syms

/-- Every indexed subsection value is listed by `list_subsections`. -/
theorem subsectionKey_mem_list_subsections {L : Loader} {it : Item} {v : String}
    (hit : it ∈ L.items) (hv : subsectionKey it = some v) :
    v ∈ L.list_subsections := by
  unfold Loader.list_subsections
  rw [mem_sortStrings, List.mem_dedup]
  exact List.mem_filterMap.mpr ⟨it, hit, hv⟩

/-!
## Claims
-/

/-- C4.  Adaptation monotonicity and fallback: for every case descriptor, the
adapted checklist's `max_points_case` is at most the definition's global total
points; and when no detected symptom maps to any subsection, the active
subsections are exactly all the checklist's subsections, and — provided every
applicable item sits in a universal block or carries a subsection, with the two
exclusive, as the data model prescribes — `max_points_case` equals the global
total exactly.  The hypotheses are the data-model invariants of spec §3: a
`subsection` is present only on systems-review items (never on universal-block
items), and every item belongs to either kind. -/
theorem C4_adaptation_monotonicity (L : Loader) (case_data : CaseData)
    (hdisj : ∀ it ∈ L.items, it.block_id ∈ UNIVERSAL_BLOCK_IDS → subsectionKey it = none) :
    (adapt_to_case L case_data).max_points_case ≤ globalTotalPoints L
    ∧ (mapped_subsections (extract_symptoms case_data) = [] →
        (adapt_to_case L case_data).subsections_b7_activas = L.list_subsections
        ∧ ((∀ it ∈ L.items, it.no_applicable = false →
              it.block_id ∈ UNIVERSAL_BLOCK_IDS ∨ (subsectionKey it).isSome = true) →
            (adapt_to_case L case_data).max_points_case = globalTotalPoints L)) := by
  have hUnodup : UNIVERSAL_BLOCK_IDS.Nodup := by decide
  have hexclU : ∀ (it : Item) (k1 k2 : String),
      decide (it.block_id = k1) = true → decide (it.block_id = k2) = true → k1 = k2 := by
    intro it k1 k2 h1 h2
    simp only [decide_eq_true_eq] at h1 h2
    rw [← h1, ← h2]
  have hexclS : ∀ (it : Item) (k1 k2 : String),
      decide (subsectionKey it = some k1) = true
        → decide (subsectionKey it = some k2) = true → k1 = k2 := by
    intro it k1 k2 h1 h2
    simp only [decide_eq_true_eq] at h1 h2
    exact Option.some.injEq k1 k2 ▸ (h1 ▸ h2 : some k1 = some k2)
  -- abbreviations for the two active parts
  set syms := extract_symptoms case_data with hsyms
  set S := sortStrings (get_active_subsections L syms) with hS
  have hSnodup : S.Nodup := nodup_active_subsections L syms
  have hmax : (adapt_to_case L case_data).max_points_case
      = ptsOf (UNIVERSAL_BLOCK_IDS.flatMap (fun b => L.get_items_for_block b)
          ++ S.flatMap (fun s => L.get_items_for_subsection s)) := rfl
  have hU : ptsOf (UNIVERSAL_BLOCK_IDS.flatMap (fun b => L.get_items_for_block b))
      = ptsOf (L.items.filter
          (fun it => UNIVERSAL_BLOCK_IDS.any (fun k => decide (it.block_id = k)))) := by
    rw [ptsOf_flatMap]
    exact sum_ptsOf_keys L.items (fun k it => decide (it.block_id = k)) hexclU
      UNIVERSAL_BLOCK_IDS hUnodup
  have hB : ptsOf (S.flatMap (fun s => L.get_items_for_subsection s))
      = ptsOf (L.items.filter
          (fun it => S.any (fun k => decide (subsectionKey it = some k)))) := by
    rw [ptsOf_flatMap]
    exact sum_ptsOf_keys L.items (fun k it => decide (subsectionKey it = some k)) hexclS
      S hSnodup
  have hdisj2 : ∀ it ∈ L.items,
      ¬((UNIVERSAL_BLOCK_IDS.any (fun k => decide (it.block_id = k))) = true
        ∧ (S.any (fun k => decide (subsectionKey it = some k))) = true) := by
    intro it hit ⟨h1, h2⟩
    rcases List.any_eq_true.mp h1 with ⟨b, hb, hbit⟩
    simp only [decide_eq_true_eq] at hbit
    have hnone := hdisj it hit (hbit ▸ hb)
    rcases List.any_eq_true.mp h2 with ⟨s, _, hsit⟩
    simp only [decide_eq_true_eq] at hsit
    rw [hnone] at hsit
    exact Option.noConfusion hsit
  have hsplit : (adapt_to_case L case_data).max_points_case
      = ptsOf (L.items.filter
          (fun it => (UNIVERSAL_BLOCK_IDS.any (fun k => decide (it.block_id = k)))
            || (S.any (fun k => decide (subsectionKey it = some k))))) := by
    rw [hmax, ptsOf_append, hU, hB, ← ptsOf_filter_or L.items _ _ hdisj2]
  constructor
  · rw [hsplit]
    exact ptsOf_filter_le L.items _
  · intro hmap
    have hactive : get_active_subsections L syms = L.list_subsections := by
      unfold get_active_subsections
      rw [hmap]
      rfl
    have hSall : S = L.list_subsections := by
      rw [hS, hactive]
      exact List.Sorted.insertionSort_eq (List.sorted_insertionSort _ _)
    constructor
    · show S = L.list_subsections
      exact hSall
    · intro hcov
      rw [hsplit]
      apply ptsOf_filter_eq_of_cover
      intro it hit hna
      rcases hcov it hit hna with h | h
      · exact Bool.or_eq_true_iff.mpr
          (Or.inl (List.any_eq_true.mpr ⟨it.block_id, h, by simp⟩))
      · refine Bool.or_eq_true_iff.mpr (Or.inr ?_)
        rcases Option.isSome_iff_exists.mp h with ⟨v, hv⟩
        exact List.any_eq_true.mpr
          ⟨v, hSall ▸ subsectionKey_mem_list_subsections hit hv, by simp [hv]⟩

/-- C4 witness: on a concrete two-block checklist and the empty case descriptor,
the adapted maximum is bounded by the global total, the fallback activates every
subsection, and the maximum equals the global total. -/
theorem C4_witness :
    (adapt_to_case loaderC4 caseEmpty).max_points_case ≤ globalTotalPoints loaderC4
    ∧ (adapt_to_case loaderC4 caseEmpty).subsections_b7_activas
        = loaderC4.list_subsections
    ∧ (adapt_to_case loaderC4 caseEmpty).max_points_case = globalTotalPoints loaderC4 := by
  have h := C4_adaptation_monotonicity loaderC4 caseEmpty (by decide)
  have h2 := h.2 (by decide)
  exact ⟨h.1, h2.1, h2.2 (by decide)⟩

/-- C5.  Threshold consistency: for every adapted checklist,
`min_points_case = ⌈max_points_case * passing_percentage / 100⌉`; in particular
`passing_percentage = 57.2` and `max_points_case = 10` give `min_points_case = 6`. -/
theorem C5_threshold_consistency (L : Loader) (case_data : CaseData) :
    (adapt_to_case L case_data).min_points_case
      = Int.ceil (((adapt_to_case L case_data).max_points_case : ℚ)
          * L.metadata.passing_percentage / 100)
    ∧ ((adapt_to_case loaderC5 caseEmpty).max_points_case = 10
        ∧ loaderC5.metadata.passing_percentage = (572 : ℚ) / 10
        ∧ (adapt_to_case loaderC5 caseEmpty).min_points_case = 6) := by
  refine ⟨rfl, by decide, rfl, ?_⟩
  have h : (adapt_to_case loaderC5 caseEmpty).min_points_case
      = Int.ceil (((adapt_to_case loaderC5 caseEmpty).max_points_case : ℚ)
          * loaderC5.metadata.passing_percentage / 100) := rfl
  rw [h, show (adapt_to_case loaderC5 caseEmpty).max_points_case = 10 from by decide]
  show Int.ceil ((10 : ℚ) * ((572 : ℚ) / 10) / 100) = 6
  rw [show (10 : ℚ) * ((572 : ℚ) / 10) / 100 = 143 / 25 by norm_num]
  rw [Int.ceil_eq_iff]
  norm_num

/-- C10.  An active item flagged `no_applicable` with positive declared points
still awards its full points on a match; those points enter `points_obtained`
while being excluded from the adapted `max_points_case`, so `points_obtained`
can exceed `max_points_case` and the percentage can exceed 100. -/
theorem C10_not_applicable_points_leak :
    (evaluate_transcript loaderC10 "t0" transcriptC10 caseEmpty none).points_obtained = 6
    ∧ (evaluate_transcript loaderC10 "t0" transcriptC10 caseEmpty none).max_points_case = 1
    ∧ (evaluate_transcript loaderC10 "t0" transcriptC10 caseEmpty
        none).max_points_case
      < (evaluate_transcript loaderC10 "t0" transcriptC10 caseEmpty none).points_obtained
    ∧ (∃ r ∈ (evaluate_transcript loaderC10 "t0" transcriptC10 caseEmpty
        none).items_evaluated,
        r.item_id = "B0_NA" ∧ r.matched = true ∧ r.points = 5)
    ∧ itemNA.no_applicable = true ∧ itemNA.points = 5
    ∧ (evaluate_transcript loaderC10 "t0" transcriptC10 caseEmpty none).percentage = 600
    ∧ (100 : ℚ)
      < (evaluate_transcript loaderC10 "t0" transcriptC10 caseEmpty none).percentage := by
  refine ⟨by decide, by decide, by decide, by decide, rfl, rfl, ?_, ?_⟩
  · have h : (evaluate_transcript loaderC10 "t0" transcriptC10 caseEmpty none).percentage
        = round1 ((((evaluate_transcript loaderC10 "t0" transcriptC10 caseEmpty
            none).points_obtained : ℕ) : ℚ)
          / (((evaluate_transcript loaderC10 "t0" transcriptC10 caseEmpty
            none).max_points_case : ℕ) : ℚ) * 100) := rfl
    rw [h, show (evaluate_transcript loaderC10 "t0" transcriptC10 caseEmpty
        none).points_obtained = 6 from by decide,
      show (evaluate_transcript loaderC10 "t0" transcriptC10 caseEmpty
        none).max_points_case = 1 from by decide]
    rw [show (((6 : ℕ) : ℚ) / ((1 : ℕ) : ℚ) * 100) = 600 by norm_num]
    unfold round1 roundHalfEven
    norm_num
  · rw [show (evaluate_transcript loaderC10 "t0" transcriptC10 caseEmpty
        none).percentage = 600 from ?_]
    · norm_num
    · have h : (evaluate_transcript loaderC10 "t0" transcriptC10 caseEmpty none).percentage
          = round1 ((((evaluate_transcript loaderC10 "t0" transcriptC10 caseEmpty
              none).points_obtained : ℕ) : ℚ)
            / (((evaluate_transcript loaderC10 "t0" transcriptC10 caseEmpty
              none).max_points_case : ℕ) : ℚ) * 100) := rfl
      rw [h, show (evaluate_transcript loaderC10 "t0" transcriptC10 caseEmpty
          none).points_obtained = 6 from by decide,
        show (evaluate_transcript loaderC10 "t0" transcriptC10 caseEmpty
          none).max_points_case = 1 from by decide]
      rw [show (((6 : ℕ) : ℚ) / ((1 : ℕ) : ℚ) * 100) = 600 by norm_num]
      unfold round1 roundHalfEven
      norm_num

/-- C1.  The code evaluated at the failing input: a transcript consisting solely
of `[PACIENTE]` lines that mention smoking makes the plain keyword item
`B5_100` (keyword "tabaco", not in the heuristic whitelist) match with
`method = "keywords"` and award its point — because `evaluate_transcript` falls
back to `extract_student_lines`, whose no-student-line fallback treats the whole
transcript (patient lines included) as examinee text.  The claim (and the code's
own docstring "Ignorar líneas del PACIENTE para evitar falsos positivos")
requires `matched = false` here. -/
theorem C1_patient_only_transcript_matches :
    ((evaluate_transcript loaderC1 "t0" patientOnlyTranscript caseEmpty
        none).items_evaluated.map
      (fun r => (r.item_id, r.matched, r.method, r.points)))
      = [("B5_100", true, "keywords", 1)]
    ∧ (evaluate_transcript loaderC1 "t0" patientOnlyTranscript caseEmpty
        none).points_obtained = 1
    ∧ itemTabaco.id ∉ heuristicWhitelist
    ∧ (preprocess_transcript_by_role patientOnlyTranscript).student_lines = []
    ∧ (preprocess_transcript_by_role patientOnlyTranscript).patient_lines
        = ["Fumo tabaco a diario."]
    ∧ extract_student_lines patientOnlyTranscript = [patientOnlyTranscript] := by
  refine ⟨by decide, by decide, by decide, by decide, by decide, by decide⟩

/-- C3.  For every raw transcript the preprocessor returns patient-side outputs
alongside examinee-side ones: `patient_text_normalized` is the normalized
concatenation of the patient turns, `student_text_normalized` likewise for the
examinee turns, and every patient turn comes from a `[PACIENTE]`/`[PATIENT]`
tagged line of the transcript. -/
theorem C3_preprocess_returns_patient_outputs (t : String) :
    (preprocess_transcript_by_role t).patient_text_normalized
      = normalize_text
          (String.intercalate " " (preprocess_transcript_by_role t).patient_lines)
    ∧ (preprocess_transcript_by_role t).student_text_normalized
      = normalize_text
          (String.intercalate " " (preprocess_transcript_by_role t).student_lines)
    ∧ (∀ line ∈ (preprocess_transcript_by_role t).patient_lines,
        ∃ raw ∈ splitLines t, classifyLine (pyStrip raw) = some (Role.patient, line)) := by
  by_cases hfb : ((taggedLines t).isEmpty && decide (pyStrip t ≠ "")) = true
  · have hres : preprocess_transcript_by_role t =
        { student_lines := [pyStrip t]
          patient_lines := []
          student_text_normalized := normalize_text (pyStrip t)
          patient_text_normalized := "" } := by
      unfold preprocess_transcript_by_role
      rw [if_pos hfb]
    rw [hres]
    refine ⟨?_, ?_, ?_⟩
    · show ("" : String) = normalize_text (String.intercalate " " [])
      rfl
    · show normalize_text (pyStrip t)
        = normalize_text (String.intercalate " " [pyStrip t])
      rfl
    · intro line hline
      exact absurd hline (by simp)
  · have hres : preprocess_transcript_by_role t =
        { student_lines := ((taggedLines t).filter (fun p => p.1 = Role.student)).map
            Prod.snd
          patient_lines := ((taggedLines t).filter (fun p => p.1 = Role.patient)).map
            Prod.snd
          student_text_normalized := normalize_text (String.intercalate " "
            (((taggedLines t).filter (fun p => p.1 = Role.student)).map Prod.snd))
          patient_text_normalized := normalize_text (String.intercalate " "
            (((taggedLines t).filter (fun p => p.1 = Role.patient)).map Prod.snd)) } := by
      unfold preprocess_transcript_by_role
      rw [if_neg hfb]
    rw [hres]
    refine ⟨rfl, rfl, ?_⟩
    intro line hline
    simp only [List.mem_map] at hline
    rcases hline with ⟨pair, hpair, hsnd⟩
    rcases List.mem_filter.mp hpair with ⟨hmem, hrole⟩
    rcases List.mem_filterMap.mp hmem with ⟨raw, hraw, hclass⟩
    refine ⟨raw, hraw, ?_⟩
    revert hclass
    by_cases hl : pyStrip raw = ""
    · simp [hl]
    · simp only [hl, if_false]
      cases hc : classifyLine (pyStrip raw) with
      | none => simp
      | some rc =>
        obtain ⟨role, content⟩ := rc
        by_cases hce : content = ""
        · simp [hce]
        · simp only [hce, if_false]
          intro hsome
          have h1 : role = pair.1 ∧ content = pair.2 := by
            have := Option.some.inj hsome
            exact ⟨congrArg Prod.fst this, congrArg Prod.snd this⟩
          have hrole2 : pair.1 = Role.patient := by
            simpa using hrole
          rw [h1.1, h1.2, hrole2, hsnd]

/-- C3 witness: the preprocessor applied to a concrete patient line. -/
theorem C3_witness :
    (preprocess_transcript_by_role "[PACIENTE]: Hola").patient_text_normalized
      = normalize_text (String.intercalate " "
          (preprocess_transcript_by_role "[PACIENTE]: Hola").patient_lines)
    ∧ ∃ raw ∈ splitLines "[PACIENTE]: Hola",
        classifyLine (pyStrip raw) = some (Role.patient, "Hola") :=
  ⟨(C3_preprocess_returns_patient_outputs "[PACIENTE]: Hola").1,
   (C3_preprocess_returns_patient_outputs "[PACIENTE]: Hola").2.2 "Hola" (by decide)⟩

/-- C7 counterexample: the same `(adapted, preprocessed)` pair evaluated at two
different wall-clock instants yields different `EvaluationResult` values — the
`timestamp` field stores `datetime.now()`. -/
theorem C7_counterexample :
    evaluate_transcript loaderC1 "2025-01-01T10:00:00" patientOnlyTranscript caseEmpty none
      ≠ evaluate_transcript loaderC1 "2025-01-01T10:00:01" patientOnlyTranscript
          caseEmpty none := by
  intro h
  have ht := congrArg EvaluationResult.timestamp h
  have h1 : (evaluate_transcript loaderC1 "2025-01-01T10:00:00" patientOnlyTranscript
      caseEmpty none).timestamp = "2025-01-01T10:00:00" := rfl
  have h2 : (evaluate_transcript loaderC1 "2025-01-01T10:00:01" patientOnlyTranscript
      caseEmpty none).timestamp = "2025-01-01T10:00:01" := rfl
  rw [h1, h2] at ht
  exact absurd ht (by decide)

/-- C7 (amended).  Scoring determinism up to the timestamp: for any two
wall-clock readings, the two evaluations of the same transcript and case agree
on every field except `timestamp` — no randomness and no clock-dependent
branching exists in the scoring path. -/
theorem C7_determinism_except_timestamp (L : Loader) (now1 now2 transcript : String)
    (case_data : CaseData) (caso_id : Option String) :
    { evaluate_transcript L now1 transcript case_data caso_id with timestamp := "" }
      = { evaluate_transcript L now2 transcript case_data caso_id with
          timestamp := "" } := rfl

/-- Unfolding equation for `validate_structure` when all three sections are
present. -/
theorem validate_structure_some (md : Metadata) (bs : List Block) (its : List Item) :
    validate_structure { metadata := some md, blocks := some bs, items := some its }
      = (if !decide ((bs.map Block.block_id).Nodup) then
          Except.error "block_id duplicados detectados"
         else if !decide ((its.map Item.id).Nodup) then
          Except.error "item.id duplicados detectados"
         else
           match its.find? (fun it => it.block_id = "") with
           | some it => Except.error ("Item " ++ it.id ++ " sin block_id")
           | none =>
             match its.find? (fun it => !List.contains (bs.map Block.block_id) it.block_id)
               with
             | some it => Except.error ("Item " ++ it.id
                 ++ " referencia bloque inexistente: " ++ it.block_id)
             | none => Except.ok ()) := rfl

/-- C2 counterexample: a definition whose only block declares `max_points = 5`
while its non-`no_applicable` items sum to 3 passes `validate_structure` and is
loaded — no fatal validation error occurs. -/
theorem C2_counterexample :
    validate_structure rawInconsistent = Except.ok ()
    ∧ (∃ L, loadChecklist rawInconsistent = Except.ok L)
    ∧ ptsOf ((rawInconsistent.items.getD []).filter
        (fun it => it.block_id = "B0_INTRODUCCION")) = 3
    ∧ ∀ b ∈ rawInconsistent.blocks.getD [], b.max_points = 5 := by
  refine ⟨rfl, ⟨_, rfl⟩, by decide, by decide⟩

/-- C2 (amended).  Load validation checks exactly: the three sections are
present, block ids are unique, item ids are unique, and every item's `block_id`
is non-empty and resolves to a declared block.  It performs no comparison of a
block's declared `max_points` with the sum of its items' points, so a
definition with inconsistent block totals loads successfully. -/
theorem C2_validation_characterization (md : Metadata) (bs : List Block)
    (its : List Item) :
    (validate_structure { metadata := some md, blocks := some bs, items := some its }
        = Except.ok ()
      ↔ ((bs.map Block.block_id).Nodup ∧ (its.map Item.id).Nodup
          ∧ ∀ it ∈ its, it.block_id ≠ "" ∧ it.block_id ∈ bs.map Block.block_id))
    ∧ (∀ raw : RawChecklist,
        raw.metadata = none ∨ raw.blocks = none ∨ raw.items = none →
          validate_structure raw ≠ Except.ok ()) := by
  constructor
  · rw [validate_structure_some]
    constructor
    · intro h
      by_cases h1 : (bs.map Block.block_id).Nodup
      · by_cases h2 : (its.map Item.id).Nodup
        · rw [if_neg (by simp [h1]), if_neg (by simp [h2])] at h
          refine ⟨h1, h2, ?_⟩
          cases hf1 : its.find? (fun it => it.block_id = "") with
          | some it =>
            rw [hf1] at h
            exact absurd h (by simp)
          | none =>
            rw [hf1] at h
            cases hf2 : its.find?
                (fun it => !List.contains (bs.map Block.block_id) it.block_id) with
            | some it =>
              rw [hf2] at h
              exact absurd h (by simp)
            | none =>
              intro it hit
              have g1 := List.find?_eq_none.mp hf1 it hit
              have g2 := List.find?_eq_none.mp hf2 it hit
              simp only [decide_eq_true_eq] at g1
              refine ⟨g1, ?_⟩
              simp only [Bool.not_eq_eq_eq_not, Bool.not_true, Bool.not_eq_true] at g2
              have : List.contains (bs.map Block.block_id) it.block_id = true := by
                cases hx : List.contains (bs.map Block.block_id) it.block_id with
                | true => rfl
                | false => exact absurd hx (by simpa using g2)
              exact List.elem_iff.mp this
        · rw [if_neg (by simp [h1]), if_pos (by simp [h2])] at h
          exact absurd h (by simp)
      · rw [if_pos (by simp [h1])] at h
        exact absurd h (by simp)
    · rintro ⟨h1, h2, h3⟩
      rw [if_neg (by simp [h1]), if_neg (by simp [h2])]
      have hf1 : its.find? (fun it => it.block_id = "") = none :=
        List.find?_eq_none.mpr (fun it hit => by simp [(h3 it hit).1])
      have hf2 : its.find? (fun it => !List.contains (bs.map Block.block_id) it.block_id)
          = none :=
        List.find?_eq_none.mpr (fun it hit => by
          rcases List.mem_map.mp (h3 it hit).2 with ⟨b, hb, hbid⟩
          simp
          exact ⟨b, hb, hbid⟩)
      rw [hf1, hf2]
  · intro raw hmiss
    obtain ⟨rm, rb, ri⟩ := raw
    rcases hmiss with h | h | h
    · simp only at h
      subst h
      intro hcontra
      exact absurd hcontra (by simp [validate_structure])
    · simp only at h
      subst h
      intro hcontra
      cases rm with
      | none => exact absurd hcontra (by simp [validate_structure])
      | some m => exact absurd hcontra (by simp [validate_structure])
    · simp only at h
      subst h
      intro hcontra
      cases rm with
      | none => exact absurd hcontra (by simp [validate_structure])
      | some m =>
        cases rb with
        | none => exact absurd hcontra (by simp [validate_structure])
        | some b => exact absurd hcontra (by simp [validate_structure])

/-- C2 witness: a consistent concrete definition passes validation, obtained
through the characterization. -/
theorem C2_witness : validate_structure rawConsistent = Except.ok () :=
  (C2_validation_characterization mdFix [blockB0] [itemU1]).1.mpr
    ⟨by decide, by decide, by decide⟩

/-- C8 counterexample: at a concrete input with one invalid pattern (`"("`, a
`re.error` in Python) and one valid pattern, loading succeeds and the pattern is
dropped, but NO warning is recorded — the `except re.error` branch is a bare
`pass`, so the warning record stays empty, contradicting the claim's "recorded
warning". -/
theorem C8_counterexample :
    re_compile "(" = none
    ∧ (∃ L, loadChecklist rawC8 = Except.ok L)
    ∧ (loaderC8.get_compiled_regex "B5_100").map RegexPattern.pattern = ["tabaco"]
    ∧ precompileWarnings [itemBadRegex] = [] := by
  exact ⟨rfl, ⟨_, rfl⟩, rfl, rfl⟩

/-- C8 (amended).  Recoverable pattern-compilation failure, without a warning:
an invalid regex pattern can never fail the load (validation is independent of
every item's pattern list), the failing pattern is silently dropped while the
item keeps its remaining patterns and keywords, and a remaining valid pattern
still matches at evaluation time — but no warning is recorded anywhere. -/
theorem C8_pattern_failure_recoverable :
    (∀ (md : Option Metadata) (bs : Option (List Block)) (its : List Item)
        (f : Item → List String),
        validate_structure
          { metadata := md, blocks := bs,
            items := some (its.map (fun it => { it with regex := f it })) }
          = validate_structure { metadata := md, blocks := bs, items := some its })
    ∧ (∃ L, loadChecklist rawC8 = Except.ok L)
    ∧ (loaderC8.get_compiled_regex "B5_100").map RegexPattern.pattern = ["tabaco"]
    ∧ itemBadRegex.keywords = ["cigarrillos"]
    ∧ (evaluate_item loaderC8 itemBadRegex "fumo tabaco a diario" "").matched = true
    ∧ (evaluate_item loaderC8 itemBadRegex "fumo tabaco a diario" "").method = "regex"
    ∧ (evaluate_item loaderC8 itemBadRegex "fumo tabaco a diario" "").match_details
        = "regex[0]: tabaco"
    ∧ precompileWarnings [itemBadRegex] = [] := by
  refine ⟨?_, ⟨_, rfl⟩, rfl, rfl, by decide, by decide, by decide, rfl⟩
  intro md bs its f
  cases md with
  | none => rfl
  | some m =>
    cases bs with
    | none => rfl
    | some b =>
      rw [validate_structure_some, validate_structure_some]
      have hids : (its.map (fun it => { it with regex := f it })).map Item.id
          = its.map Item.id := by
        rw [List.map_map]
        rfl
      rw [hids]
      have hf1 : (its.map (fun it => { it with regex := f it })).find?
          (fun it => it.block_id = "")
          = (its.find? (fun it => it.block_id = "")).map
              (fun it => { it with regex := f it }) := by
        rw [List.find?_map]
        rfl
      have hf2 : (its.map (fun it => { it with regex := f it })).find?
          (fun it => !List.contains (b.map Block.block_id) it.block_id)
          = (its.find? (fun it => !List.contains (b.map Block.block_id) it.block_id)).map
              (fun it => { it with regex := f it }) := by
        rw [List.find?_map]
        rfl
      rw [hf1, hf2]
      cases its.find? (fun it => it.block_id = "") with
      | some it => rfl
      | none =>
        cases its.find? (fun it => !List.contains (b.map Block.block_id) it.block_id) with
        | some it => rfl
        | none => rfl

/-- The regex loop finds nothing exactly when no pattern matches. -/
theorem firstRegexHitAux_none_iff (st : String) :
    ∀ (ps : List RegexPattern) (i0 : Nat),
      firstRegexHitAux i0 ps st = none ↔ ∀ p ∈ ps, p.search st = false
  | [], i0 => by simp [firstRegexHitAux]
  | p :: ps, i0 => by
    by_cases hp : p.search st = true
    · simp only [firstRegexHitAux, if_pos hp]
      constructor
      · intro h
        exact absurd h (by simp)
      · intro h
        exact absurd (h p (List.mem_cons_self p ps)) (by simp [hp])
    · have hpf : p.search st = false := Bool.eq_false_iff.mpr hp
      simp only [firstRegexHitAux, if_neg hp]
      rw [firstRegexHitAux_none_iff st ps (i0 + 1)]
      constructor
      · intro h q hq
        rcases List.mem_cons.mp hq with h1 | h1
        · rw [h1]
          exact hpf
        · exact h q h1
      · intro h q hq
        exact h q (List.mem_cons_of_mem p hq)

/-- The regex loop returns the FIRST matching pattern in declared order, with
its index into the compiled list. -/
theorem firstRegexHitAux_some_spec (st : String) :
    ∀ (ps : List RegexPattern) (i0 i : Nat) (p : RegexPattern),
      firstRegexHitAux i0 ps st = some (i, p) →
      i0 ≤ i ∧ ps.get? (i - i0) = some p ∧ p.search st = true
        ∧ ∀ j q, j < i - i0 → ps.get? j = some q → q.search st = false
  | [], i0, i, p => by simp [firstRegexHitAux]
  | q :: ps, i0, i, p => by
    intro h
    by_cases hq : q.search st = true
    · rw [firstRegexHitAux, if_pos hq] at h
      have h1 : i0 = i ∧ q = p := by
        have := Option.some.inj h
        exact ⟨congrArg Prod.fst this, congrArg Prod.snd this⟩
      obtain ⟨hi, hqp⟩ := h1
      subst hi
      subst hqp
      refine ⟨Nat.le_refl i0, ?_, hq, ?_⟩
      · rw [Nat.sub_self]
        rfl
      · intro j r hj
        rw [Nat.sub_self] at hj
        exact absurd hj (Nat.not_lt_zero j)
    · rw [firstRegexHitAux, if_neg hq] at h
      obtain ⟨hle, hget, hsearch, hfirst⟩ := firstRegexHitAux_some_spec st ps (i0 + 1) i p h
      have hlt : i0 < i := Nat.lt_of_succ_le hle
      refine ⟨Nat.le_of_lt hlt, ?_, hsearch, ?_⟩
      · have : i - i0 = (i - (i0 + 1)) + 1 := by omega
        rw [this]
        simpa using hget
      · intro j r hj hr
        cases j with
        | zero =>
          have hrq : q = r := by
            simpa using hr
          rw [← hrq]
          exact Bool.eq_false_iff.mpr hq
        | succ j2 =>
          apply hfirst j2 r (by omega)
          simpa using hr

/-- A non-whitelisted item id never satisfies the heuristic cross-reference. -/
theorem special_match_eq_false_of_not_whitelist {item_id st pt : String}
    (h : item_id ∉ heuristicWhitelist) : special_match item_id st pt = false := by
  simp only [heuristicWhitelist, List.mem_cons, List.not_mem_nil, or_false, not_or] at h
  obtain ⟨h1, h2, h3, h4, h5, h6, h7, h8, h9, h10⟩ := h
  unfold special_match
  by_cases h0 : (decide (st = "") || decide (pt = "")) = true
  · rw [if_pos h0]
  · rw [if_neg h0, if_neg h1, if_neg h2, if_neg h3, if_neg h4, if_neg h5, if_neg h6,
      if_neg h7, if_neg h8, if_neg h9, if_neg h10]

/-- C6.  Per-item matching order with binary scoring: regex patterns are tried
first in declared order against the normalized examinee text; the word-bounded
normalized keyword search runs only when no regex matched; the heuristic
cross-reference fires only for the enumerated whitelist of item ids and only
when regex and keywords both failed; if nothing matches the result is
`method = "none"`, `matched = false`, zero points; any match awards exactly the
item's declared points — never partial credit. -/
theorem C6_matching_order (L : Loader) (item : Item) (st pt : String) :
    ((∃ p ∈ L.get_compiled_regex item.id, p.search st = true) →
        (evaluate_item L item st pt).method = "regex"
        ∧ (evaluate_item L item st pt).matched = true
        ∧ (evaluate_item L item st pt).points = item.points)
    ∧ ((∀ p ∈ L.get_compiled_regex item.id, p.search st = false) →
        (∃ kw ∈ item.keywords, searchWordBounded (normalize_text kw) st = true) →
        (evaluate_item L item st pt).method = "keywords"
        ∧ (evaluate_item L item st pt).matched = true
        ∧ (evaluate_item L item st pt).points = item.points)
    ∧ ((∀ p ∈ L.get_compiled_regex item.id, p.search st = false) →
        (∀ kw ∈ item.keywords, searchWordBounded (normalize_text kw) st = false) →
        pt ≠ "" → special_match item.id st pt = true →
        (evaluate_item L item st pt).method = "heuristic"
        ∧ (evaluate_item L item st pt).matched = true
        ∧ (evaluate_item L item st pt).points = item.points)
    ∧ ((∀ p ∈ L.get_compiled_regex item.id, p.search st = false) →
        (∀ kw ∈ item.keywords, searchWordBounded (normalize_text kw) st = false) →
        ¬(pt ≠ "" ∧ special_match item.id st pt = true) →
        evaluate_item L item st pt
          = { item_id := item.id, label := itemLabel item, matched := false, points := 0
              method := "none", match_details := "" })
    ∧ ((evaluate_item L item st pt).matched = true →
        (evaluate_item L item st pt).points = item.points)
    ∧ ((evaluate_item L item st pt).matched = false →
        (evaluate_item L item st pt).points = 0
        ∧ (evaluate_item L item st pt).method = "none")
    ∧ ((evaluate_item L item st pt).method = "heuristic" →
        item.id ∈ heuristicWhitelist)
    ∧ (∀ i p, firstRegexHit (L.get_compiled_regex item.id) st = some (i, p) →
        (L.get_compiled_regex item.id).get? i = some p ∧ p.search st = true
        ∧ (∀ j q, j < i → (L.get_compiled_regex item.id).get? j = some q →
            q.search st = false)
        ∧ (evaluate_item L item st pt).match_details
            = "regex[" ++ toString i ++ "]: " ++ p.pattern) := by
  have hregex_spec : ∀ i p, firstRegexHit (L.get_compiled_regex item.id) st = some (i, p) →
      (L.get_compiled_regex item.id).get? i = some p ∧ p.search st = true
      ∧ ∀ j q, j < i → (L.get_compiled_regex item.id).get? j = some q →
          q.search st = false := by
    intro i p hfp
    obtain ⟨_, hget, hsearch, hfirst⟩ :=
      firstRegexHitAux_some_spec st (L.get_compiled_regex item.id) 0 i p hfp
    rw [Nat.sub_zero] at hget hfirst
    exact ⟨hget, hsearch, fun j q hj hq => hfirst j q hj hq⟩
  cases hr : firstRegexHit (L.get_compiled_regex item.id) st with
  | some ip =>
    obtain ⟨i, p⟩ := ip
    have hres : evaluate_item L item st pt
        = { item_id := item.id, label := itemLabel item, matched := true
            points := item.points, method := "regex"
            match_details := "regex[" ++ toString i ++ "]: " ++ p.pattern } := by
      unfold evaluate_item
      rw [hr]
    have hnoR : ¬(∀ q ∈ L.get_compiled_regex item.id, q.search st = false) := by
      intro hall
      rw [show firstRegexHit (L.get_compiled_regex item.id) st
          = firstRegexHitAux 0 (L.get_compiled_regex item.id) st from rfl,
        (firstRegexHitAux_none_iff st _ 0).mpr hall] at hr
      exact Option.noConfusion hr
    refine ⟨fun _ => by rw [hres]; exact ⟨rfl, rfl, rfl⟩,
      fun hall _ => absurd hall hnoR,
      fun hall _ _ _ => absurd hall hnoR,
      fun hall _ _ => absurd hall hnoR,
      fun _ => by rw [hres],
      ?_, ?_, ?_⟩
    · rw [hres]
      intro hcontra
      exact absurd hcontra (by simp)
    · rw [hres]
      intro hcontra
      exact absurd hcontra (by simp)
    · intro i2 p2 hsome
      have h1 : i = i2 ∧ p = p2 := by
        have := Option.some.inj hsome
        exact ⟨congrArg Prod.fst this, congrArg Prod.snd this⟩
      obtain ⟨hi, hp⟩ := h1
      subst hi
      subst hp
      obtain ⟨a, b, c⟩ := hregex_spec i p hr
      exact ⟨a, b, c, by rw [hres]⟩
  | none =>
    have hRfalse : ∀ q ∈ L.get_compiled_regex item.id, q.search st = false :=
      (firstRegexHitAux_none_iff st _ 0).mp hr
    have hnoRexists : ¬(∃ p ∈ L.get_compiled_regex item.id, p.search st = true) := by
      rintro ⟨p, hp, hps⟩
      exact absurd (hRfalse p hp) (by simp [hps])
    cases hk : firstKeywordHit item.keywords st with
    | some kw =>
      have hres : evaluate_item L item st pt
          = { item_id := item.id, label := itemLabel item, matched := true
              points := item.points, method := "keywords"
              match_details := "keyword: " ++ kw } := by
        unfold evaluate_item
        rw [hr, hk]
      have hnoK : ¬(∀ kw2 ∈ item.keywords, searchWordBounded (normalize_text kw2) st
          = false) := by
        intro hall
        have := List.find?_some hk
        rw [hall kw (List.mem_of_find?_eq_some hk)] at this
        exact Bool.noConfusion this
      refine ⟨fun hex => absurd hex hnoRexists,
        fun _ _ => by rw [hres]; exact ⟨rfl, rfl, rfl⟩,
        fun _ hall _ _ => absurd hall hnoK,
        fun _ hall _ => absurd hall hnoK,
        fun _ => by rw [hres],
        ?_, ?_, ?_⟩
      · rw [hres]
        intro hcontra
        exact absurd hcontra (by simp)
      · rw [hres]
        intro hcontra
        exact absurd hcontra (by simp)
      · intro i2 p2 hsome
        exact Option.noConfusion hsome
    | none =>
      have hKfalse : ∀ kw ∈ item.keywords, searchWordBounded (normalize_text kw) st
          = false := by
        intro kw hkw
        have := List.find?_eq_none.mp hk kw hkw
        exact Bool.eq_false_iff.mpr this
      by_cases hh : (decide (pt ≠ "") && special_match item.id st pt) = true
      · have hres : evaluate_item L item st pt
            = { item_id := item.id, label := itemLabel item, matched := true
                points := item.points, method := "heuristic"
                match_details := "override_by_patient" } := by
          unfold evaluate_item
          rw [hr, hk, if_pos hh]
        obtain ⟨hpt, hsp⟩ := Bool.and_eq_true_iff.mp hh
        have hptne : pt ≠ "" := by simpa using hpt
        refine ⟨fun hex => absurd hex hnoRexists,
          fun _ hex => by
            rcases hex with ⟨kw, hkw, hkws⟩
            exact absurd (hKfalse kw hkw) (by simp [hkws]),
          fun _ _ _ _ => by rw [hres]; exact ⟨rfl, rfl, rfl⟩,
          fun _ _ hneg => absurd ⟨hptne, hsp⟩ hneg,
          fun _ => by rw [hres],
          ?_, ?_, ?_⟩
        · rw [hres]
          intro hcontra
          exact absurd hcontra (by simp)
        · intro _
          by_contra hnotwl
          have := @special_match_eq_false_of_not_whitelist item.id st pt hnotwl
          rw [this] at hsp
          exact Bool.noConfusion hsp
        · intro i2 p2 hsome
          exact Option.noConfusion hsome
      · have hres : evaluate_item L item st pt
            = { item_id := item.id, label := itemLabel item, matched := false
                points := 0, method := "none", match_details := "" } := by
          unfold evaluate_item
          rw [hr, hk, if_neg hh]
        refine ⟨fun hex => absurd hex hnoRexists,
          fun _ hex => by
            rcases hex with ⟨kw, hkw, hkws⟩
            exact absurd (hKfalse kw hkw) (by simp [hkws]),
          fun _ _ hpt hsp => absurd (by simp [hpt, hsp]) hh,
          fun _ _ _ => hres,
          ?_, fun _ => by rw [hres]; exact ⟨rfl, rfl⟩, ?_, ?_⟩
        · rw [hres]
          intro hcontra
          exact absurd hcontra (by simp)
        · rw [hres]
          intro hcontra
          exact absurd hcontra (by simp)
        · intro i2 p2 hsome
          exact Option.noConfusion hsome

/-- C6 witness: concrete applications of the matching-order theorem.  With both
a regex and a keyword available the regex wins; with an empty student text no
method fires and the zero result is returned. -/
theorem C6_witness :
    ((evaluate_item loaderC6 itemC6 "pregunto por el tabaco" "").method = "regex"
      ∧ (evaluate_item loaderC6 itemC6 "pregunto por el tabaco" "").matched = true
      ∧ (evaluate_item loaderC6 itemC6 "pregunto por el tabaco" "").points = 2)
    ∧ evaluate_item loaderC6 itemC6 "hola" ""
        = { item_id := "B5_100", label := "B5_100", matched := false, points := 0
            method := "none", match_details := "" } := by
  constructor
  · exact (C6_matching_order loaderC6 itemC6 "pregunto por el tabaco" "").1
      (by
        refine ⟨{ pattern := "tabaco"
                  search := fun text => pyContains (pyLower text) (pyLower "tabaco") },
          ?_, ?_⟩
        · exact List.mem_singleton.mpr rfl
        · decide)
  · have h := (C6_matching_order loaderC6 itemC6 "hola" "").2.2.2.1
    exact h (by decide) (by decide) (by simp)

/-- C9.  Normalization idempotence: for every string `x`,
`normalize_text (normalize_text x) = normalize_text x`, where `normalize_text`
lower-cases, strips diacritics by canonical decomposition and removal of
combining marks, replaces non-word/non-space characters with a space, collapses
whitespace runs to one space, and trims. -/
theorem C9_normalize_text_idempotent (x : String) :
    normalize_text (normalize_text x) = normalize_text x := by
  by_cases hx : x = ""
  · subst hx
    rfl
  · have hdef : normalize_text x = ⟨pyStripChars (normalizeChars x.data)⟩ := by
      unfold normalize_text
      rw [if_neg hx]
    by_cases ht : normalize_text x = ""
    · rw [ht]
      rfl
    · rw [hdef] at ht ⊢
      unfold normalize_text
      rw [if_neg ht]
      obtain ⟨hg, hadj, hh, hl⟩ := normalized_props x.data
      exact congrArg String.mk (canonical_fixed hg hadj hh hl)

end ECOE
